import Mathlib

/-!
# HelperThread (Source/Samples/59_Ocean/Ocean.h)

A shallow embedding of the worker-thread wrapper `template<class T> class HelperThread`
used by the ocean sample to run the wave synthesis off the main thread.

The class is embedded as a small-step machine with two threads of execution:

* the worker thread, which executes `ThreadFunction` (Ocean.h:44-60);
* the controlling thread, which executes a script of calls to `Start`,
  `HasFnExited` and `WaitExit` (the destructor is one call of `WaitExit`).

Every statement that touches shared state is one step.  A scoped `MutexLock`
is three steps: acquire, the guarded read or write, release.  The return of a
guarded accessor and the branch taken on the returned value are local to the
running thread and are folded into the release step.  A thread that tries to
acquire a held mutex does not move.  A schedule is a list of thread ids.

The callback `(parent_->*processFn_)()` is a member function of the parent
object.  An invocation is two steps of the worker, its begin and its return, so
that the controlling thread can take any number of steps while it executes; it
does not touch the members of the `HelperThread` object.

Fields that only observe the run (counters of callback invocations, sleeps and
polls, the recorded callback outcomes, the count of effective worker steps, the
count of flag accesses made without the mutex) influence neither the program
counters nor the members of the object.
-/

namespace OceanSim

/-! ## Data model -/

/-- The two threads of execution that touch a `HelperThread` object. -/
inductive Tid where
  | ctrl
  | worker
  deriving DecidableEq, Repr

/-- Member variables of `HelperThread` (Ocean.h:99-105).  The parent pointer and
the member-function pointer are opaque handles; `mutexLock_` records the thread
that currently owns the mutex. -/
structure HelperThread where
  parent_ : Nat
  processFn_ : Nat
  mutexLock_ : Option Tid
  priority_ : Int
  looping_ : Bool
  fnExited_ : Bool
  deriving DecidableEq, Repr

/-- The constructor `HelperThread(parent, pFn, looping, priority)` (Ocean.h:28-31):
every member is taken from the arguments except `fnExited_`, which is initialised
to `true`; the mutex is created unowned. -/
def HelperThread.ctor (parent pFn : Nat) (looping : Bool) (priority : Int) :
    HelperThread :=
  { parent_ := parent, processFn_ := pFn, mutexLock_ := none, priority_ := priority,
    looping_ := looping, fnExited_ := true }

/-- `Mutex::Acquire` as used by the `MutexLock` guard: succeeds when the mutex
is unowned, otherwise the caller has to wait.  (No operation of the class
acquires the mutex while its thread already owns it.) -/
def Mutex.Acquire (t : Tid) (h : HelperThread) : Option HelperThread :=
  match h.mutexLock_ with
  | none => some { h with mutexLock_ := some t }
  | some _ => none

/-- `Mutex::Release`, run by the destructor of the `MutexLock` guard. -/
def Mutex.Release (h : HelperThread) : HelperThread :=
  { h with mutexLock_ := none }

/-- Phases of a guarded setter body (`SetLooping`, `SetFnExit`). -/
inductive WPhase where
  | lock
  | access
  | unlock
  deriving DecidableEq, Repr

/-- Phases of a guarded getter body (`IsLooping`, `HasFnExited`); the value read
under the lock is carried to the return. -/
inductive RPhase where
  | lock
  | access
  | unlock (r : Bool)
  deriving DecidableEq, Repr

/-- Program counter of the worker thread inside `ThreadFunction` (Ocean.h:44-60). -/
inductive WPc where
  /-- no thread function has been spawned yet -/
  | idle
  /-- inside `SetFnExit(bset)`: line 46 for `false`, line 59 for `true` -/
  | setFnExit (bset : Bool) (ph : WPhase)
  /-- line 51, about to invoke `(parent_->*processFn_)()` -/
  | callFn
  /-- line 51, the callback is executing -/
  | inFn
  /-- line 53, inside `IsLooping()` -/
  | isLooping (ph : RPhase)
  /-- line 56, about to run `Time::Sleep(0)` -/
  | sleep0
  /-- `ThreadFunction` has returned -/
  | done
  deriving DecidableEq, Repr

/-- Calls the controlling thread can make on the object.  `WaitExit` is
protected and is reached through the destructor (Ocean.h:33-36). -/
inductive Op where
  | Start
  | HasFnExited
  | WaitExit
  deriving DecidableEq, Repr

/-- Program counter of the controlling thread. -/
inductive CPc where
  /-- between two calls -/
  | ready
  /-- `Start`, line 40: `Run()` -/
  | run
  /-- `Start`, line 41: `SetPriority(priority_)` -/
  | setPriority
  /-- `WaitExit`, line 71: inside `SetLooping(bset)` -/
  | setLooping (bset : Bool) (ph : WPhase)
  /-- `WaitExit`, line 75: about to run `Time::Sleep(1)` -/
  | sleep1
  /-- inside `HasFnExited()`: called from line 77 when `inWait`, else called
  directly by the controlling thread -/
  | hasFnExited (inWait : Bool) (ph : RPhase)
  deriving DecidableEq, Repr

/-- State of the two-thread system around one `HelperThread` object. -/
structure Sys where
  obj : HelperThread
  wpc : WPc
  cpc : CPc
  /-- calls the controlling thread has still to make -/
  todo : List Op
  /-- value returned by the last completed `HasFnExited()` -/
  ret : Option Bool
  /-- number of thread functions spawned by `Run()` -/
  runs : Nat
  /-- number of callback invocations begun -/
  calls : Nat
  /-- outcomes of the callback invocations that have returned -/
  results : List Bool
  /-- number of `Time::Sleep(0)` executed by the worker -/
  sleeps0 : Nat
  /-- number of `Time::Sleep(1)` executed by `WaitExit` -/
  sleeps1 : Nat
  /-- number of reads of `fnExited_` made by `HasFnExited` -/
  polls : Nat
  /-- number of steps the worker has actually taken (waiting does not count) -/
  wsteps : Nat
  /-- number of accesses to `looping_` or `fnExited_` made by a thread that did
  not own `mutexLock_` -/
  unguarded : Nat
  deriving DecidableEq, Repr

/-- Penalty recorded for an access to a flag by thread `t`. -/
def unlockedAccess (t : Tid) (h : HelperThread) : Nat :=
  if h.mutexLock_ = some t then 0 else 1

/-! ## The worker thread -/

/-- One step of `ThreadFunction` (Ocean.h:44-60).  The callback is `void`; its
outcome `cb i` for invocation number `i` is recorded and not looked at. -/
def stepWorker (cb : Nat → Bool) (s : Sys) : Sys :=
  match s.wpc with
  | .idle => s
  | .done => s
  -- SetFnExit(bset): MutexLock lock(mutexLock_);
  | .setFnExit bset .lock =>
    match Mutex.Acquire .worker s.obj with
    | some h => { s with obj := h, wpc := .setFnExit bset .access, wsteps := s.wsteps + 1 }
    | none => s
  -- fnExited_ = bset;
  | .setFnExit bset .access =>
    { s with obj := { s.obj with fnExited_ := bset }, wpc := .setFnExit bset .unlock,
             wsteps := s.wsteps + 1,
             unguarded := s.unguarded + unlockedAccess .worker s.obj }
  -- end of scope; line 46 continues into the loop, line 59 returns
  | .setFnExit bset .unlock =>
    { s with obj := Mutex.Release s.obj, wpc := if bset then .done else .callFn,
             wsteps := s.wsteps + 1 }
  -- (parent_->*processFn_)();
  | .callFn => { s with calls := s.calls + 1, wpc := .inFn, wsteps := s.wsteps + 1 }
  | .inFn =>
    { s with results := s.results ++ [cb s.results.length], wpc := .isLooping .lock,
             wsteps := s.wsteps + 1 }
  -- IsLooping(): MutexLock lock(mutexLock_);
  | .isLooping .lock =>
    match Mutex.Acquire .worker s.obj with
    | some h => { s with obj := h, wpc := .isLooping .access, wsteps := s.wsteps + 1 }
    | none => s
  -- return looping_;
  | .isLooping .access =>
    { s with wpc := .isLooping (.unlock s.obj.looping_), wsteps := s.wsteps + 1,
             unguarded := s.unguarded + unlockedAccess .worker s.obj }
  -- end of scope; if (!IsLooping()) break;
  | .isLooping (.unlock r) =>
    { s with obj := Mutex.Release s.obj,
             wpc := if r then .sleep0 else .setFnExit true .lock,
             wsteps := s.wsteps + 1 }
  -- Time::Sleep(0);
  | .sleep0 => { s with sleeps0 := s.sleeps0 + 1, wpc := .callFn, wsteps := s.wsteps + 1 }

/-! ## The controlling thread -/

/-- Modelled from the spec: `Thread::Run()` of the engine's `Thread` base class,
which is not part of the sample's header.  The spec describes it as the
transition Stopped→Running that "spawns the execution unit that loops": when no
thread function is executing, a new one is placed at the entry of
`ThreadFunction`; a running worker is left alone. -/
def Thread.Run (w : WPc) : WPc :=
  match w with
  | .idle => .setFnExit false .lock
  | .done => .setFnExit false .lock
  | w => w

/-- No thread function is executing: none was spawned yet, or the last one has
returned.  These are the states from which `Thread.Run` spawns. -/
def Thread.stopped (w : WPc) : Bool :=
  match w with
  | .idle => true
  | .done => true
  | _ => false

/-- First program point of a call. -/
def Op.entry : Op → CPc
  | .Start => .run
  | .HasFnExited => .hasFnExited false .lock
  | .WaitExit => .setLooping false .lock

/-- One step of the controlling thread: `Start` (Ocean.h:38-42), `HasFnExited`
(62-66), `WaitExit` with `SetLooping` (69-84). -/
def stepCtrl (s : Sys) : Sys :=
  match s.cpc with
  | .ready =>
    match s.todo with
    | [] => s
    | op :: rest => { s with cpc := op.entry, todo := rest }
  -- Run();
  | .run =>
    { s with wpc := Thread.Run s.wpc,
             runs := if Thread.stopped s.wpc then s.runs + 1 else s.runs,
             cpc := .setPriority }
  -- SetPriority(priority_); changes the scheduling priority only
  | .setPriority => { s with cpc := .ready }
  -- SetLooping(bset): MutexLock lock(mutexLock_);
  | .setLooping bset .lock =>
    match Mutex.Acquire .ctrl s.obj with
    | some h => { s with obj := h, cpc := .setLooping bset .access }
    | none => s
  -- looping_ = bset;
  | .setLooping bset .access =>
    { s with obj := { s.obj with looping_ := bset }, cpc := .setLooping bset .unlock,
             unguarded := s.unguarded + unlockedAccess .ctrl s.obj }
  -- end of scope; WaitExit goes on to its do-while
  | .setLooping _ .unlock => { s with obj := Mutex.Release s.obj, cpc := .sleep1 }
  -- Time::Sleep(1);
  | .sleep1 => { s with sleeps1 := s.sleeps1 + 1, cpc := .hasFnExited true .lock }
  -- HasFnExited(): MutexLock lock(mutexLock_);
  | .hasFnExited w .lock =>
    match Mutex.Acquire .ctrl s.obj with
    | some h => { s with obj := h, cpc := .hasFnExited w .access }
    | none => s
  -- return fnExited_;
  | .hasFnExited w .access =>
    { s with cpc := .hasFnExited w (.unlock s.obj.fnExited_), polls := s.polls + 1,
             unguarded := s.unguarded + unlockedAccess .ctrl s.obj }
  -- end of scope; inside WaitExit: while (!HasFnExited());
  | .hasFnExited w (.unlock r) =>
    { s with obj := Mutex.Release s.obj, ret := some r,
             cpc := if w then (if r then .ready else .sleep1) else .ready }

/-! ## Interleaving -/

/-- One step of the thread chosen by the scheduler. -/
def step (cb : Nat → Bool) (t : Tid) (s : Sys) : Sys :=
  match t with
  | .worker => stepWorker cb s
  | .ctrl => stepCtrl s

/-- Run a schedule from a state. -/
def run (cb : Nat → Bool) : List Tid → Sys → Sys
  | [], s => s
  | t :: sched, s => run cb sched (step cb t s)

/-- The system right after construction of the object: no thread function has
been spawned and the controlling thread has `todo` still to execute. -/
def boot (h : HelperThread) (todo : List Op) : Sys :=
  { obj := h, wpc := .idle, cpc := .ready, todo := todo, ret := none, runs := 0,
    calls := 0, results := [], sleeps0 := 0, sleeps1 := 0, polls := 0, wsteps := 0,
    unguarded := 0 }

/-- `SetLooping(bset)` (Ocean.h:80-84) run without interruption by thread `t`. -/
def HelperThread.SetLooping (t : Tid) (bset : Bool) (h : HelperThread) : Option HelperThread :=
  (Mutex.Acquire t h).map fun h1 => Mutex.Release { h1 with looping_ := bset }

/-- States reachable from a freshly constructed object: the constructor is run
with arbitrary arguments, the controlling thread is given a script, and the
scheduler interleaves the two threads. -/
def reach (cb : Nat → Bool) (p f : Nat) (l : Bool) (pr : Int) (todo : List Op)
    (sched : List Tid) : Sys :=
  run cb sched (boot (HelperThread.ctor p f l pr) todo)

/-! ## Bookkeeping used by the proofs -/

/-- Program points of the worker between the acquire and the release of a guard. -/
def WPc.holds : WPc → Bool
  | .setFnExit _ .access => true
  | .setFnExit _ .unlock => true
  | .isLooping .access => true
  | .isLooping (.unlock _) => true
  | _ => false

/-- Program points of the controlling thread between the acquire and the release
of a guard. -/
def CPc.holds : CPc → Bool
  | .setLooping _ .access => true
  | .setLooping _ .unlock => true
  | .hasFnExited _ .access => true
  | .hasFnExited _ (.unlock _) => true
  | _ => false

/-- `SetLooping` is entered with argument `false` only (its one call site is
line 71). -/
def CPc.stopOnly : CPc → Bool
  | .setLooping true _ => false
  | _ => true

/-- Owner of the mutex as determined by the two program counters. -/
def owner (w : WPc) (c : CPc) : Option Tid :=
  if w.holds then some .worker else if c.holds then some .ctrl else none

/-- Consistency of the mutex with the program counters. -/
def Inv (s : Sys) : Prop :=
  s.obj.mutexLock_ = owner s.wpc s.cpc ∧ (s.wpc.holds && s.cpc.holds) = false ∧
    s.cpc.stopOnly = true

instance instDecidableInv (s : Sys) : Decidable (Inv s) := by
  unfold Inv; infer_instance

/-- The worker is inside the `while (true)` loop of `ThreadFunction` (lines 48-57). -/
def WPc.inLoop : WPc → Bool
  | .callFn => true
  | .inFn => true
  | .isLooping _ => true
  | .sleep0 => true
  | _ => false

/-- Value of `fnExited_` at each program point of the worker, for an object that
was constructed and then only used through its own operations. -/
def WPc.exited : WPc → Bool
  | .idle => true
  | .setFnExit false .lock => true
  | .setFnExit false .access => true
  | .setFnExit true .unlock => true
  | .done => true
  | _ => false

/-- With `looping_` false: the number of callback invocations the thread function
in progress has still to begin. -/
def WPc.owed : WPc → Nat
  | .setFnExit false _ => 1
  | .callFn => 1
  | .isLooping (.unlock true) => 1
  | .sleep0 => 1
  | _ => 0

/-- With `looping_` false: the number of steps the worker has still to take
before `ThreadFunction` has returned. -/
def WPc.dist : WPc → Nat
  | .idle => 0
  | .setFnExit false .lock => 11
  | .setFnExit false .access => 10
  | .setFnExit false .unlock => 9
  | .callFn => 8
  | .inFn => 7
  | .isLooping .lock => 6
  | .isLooping .access => 5
  | .isLooping (.unlock false) => 4
  | .isLooping (.unlock true) => 10
  | .sleep0 => 9
  | .setFnExit true .lock => 3
  | .setFnExit true .access => 2
  | .setFnExit true .unlock => 1
  | .done => 0

/-- With `looping_` false: the number of `Time::Sleep(0)` the thread function in
progress has still to execute. -/
def WPc.naps : WPc → Nat
  | .isLooping (.unlock true) => 1
  | .sleep0 => 1
  | _ => 0

/-- The controlling thread is inside `WaitExit` and has executed
`SetLooping(false)`'s assignment. -/
def CPc.requested : CPc → Bool
  | .setLooping false .unlock => true
  | .sleep1 => true
  | .hasFnExited true _ => true
  | _ => false

/-- Inside `WaitExit`, a `Time::Sleep(1)` has been executed whose poll has not yet
read `fnExited_`. -/
def CPc.pollPending : CPc → Nat
  | .hasFnExited true .lock => 1
  | .hasFnExited true .access => 1
  | _ => 0

/-- Accounting between a state `s` and a later state `t` while `looping_` is
false: every thread function spawned in between begins one callback invocation,
takes eleven steps and never sleeps. -/
def Acct (s t : Sys) : Prop :=
  t.obj.looping_ = false ∧
  t.calls + t.wpc.owed + s.runs = s.calls + s.wpc.owed + t.runs ∧
  t.wsteps + t.wpc.dist + 11 * s.runs = s.wsteps + s.wpc.dist + 11 * t.runs ∧
  t.sleeps0 + t.wpc.naps = s.sleeps0 + s.wpc.naps ∧
  s.runs ≤ t.runs ∧ s.calls ≤ t.calls ∧ s.sleeps0 ≤ t.sleeps0 ∧ s.wsteps ≤ t.wsteps

/-- No call of `Start` is in progress or pending. -/
def NoStart (s : Sys) : Prop :=
  s.cpc ≠ .run ∧ Op.Start ∉ s.todo

instance instDecidableNoStart (s : Sys) : Decidable (NoStart s) := by
  unfold NoStart; infer_instance

/-- Once the worker has written `true` at line 59, `fnExited_` is true. -/
def ExitOK (s : Sys) : Prop :=
  (s.wpc = .setFnExit true .unlock ∨ s.wpc = .done) → s.obj.fnExited_ = true

/-- Number of its own steps after which the controlling thread has left the
guarded section it is in. -/
def CPc.unblock : CPc → Nat
  | .setLooping _ .access => 2
  | .setLooping _ .unlock => 1
  | .hasFnExited _ .access => 2
  | .hasFnExited _ (.unlock _) => 1
  | _ => 0

/-- A schedule that lets the controlling thread leave its guarded section and
then lets the worker run alone until `ThreadFunction` has returned. -/
def finish (s : Sys) : List Tid :=
  List.replicate s.cpc.unblock Tid.ctrl ++ List.replicate s.wpc.dist Tid.worker

/-- While the controlling thread's script is still `T`, the thread is inside the
polling part of `WaitExit` or has returned from it with the last poll having
read `true`; once the script is shorter, a later call has begun. -/
def InWait (T : List Op) (s : Sys) : Prop :=
  (s.todo = T ∧ (s.cpc.requested = true ∨ (s.cpc = .ready ∧ s.ret = some true))) ∨
    s.todo.length < T.length

/-- A concrete run: `Start` has returned, the worker is inside its first callback
invocation, and `WaitExit` has just assigned `looping_ = false`. -/
def stopDuringCallback : Sys :=
  reach (fun _ => true) 1 2 true 0 [Op.Start, Op.WaitExit]
    [.ctrl, .ctrl, .ctrl, .worker, .worker, .worker, .worker, .ctrl, .ctrl, .ctrl]

/-- The worker has left the loop of the thread function in progress. -/
def WPc.leaving : WPc → Bool
  | .isLooping (.unlock false) => true
  | .setFnExit true _ => true
  | .done => true
  | _ => false

/-- Facts that hold in every state reachable from a freshly constructed object:
the mutex agrees with the program counters, `fnExited_` is determined by the
program point of the worker, every callback invocation begun has returned unless
one is executing, the worker leaves the loop only with `looping_` false,
`looping_` is false once `WaitExit` has assigned it, and no flag was accessed
without the mutex. -/
def Good (s : Sys) : Prop :=
  Inv s ∧ s.obj.fnExited_ = s.wpc.exited ∧
    s.results.length + (if s.wpc = .inFn then 1 else 0) = s.calls ∧
    (s.wpc.leaving = true → s.obj.looping_ = false) ∧
    (s.cpc.requested = true → s.obj.looping_ = false) ∧
    s.unguarded = 0

/-- Program points of a thread function that precede its first callback
invocation (and the start of any later iteration). -/
def WPc.beforeCall : WPc → Bool
  | .setFnExit false _ => true
  | .callFn => true
  | _ => false

/-- A concrete run: an object constructed with `looping = false`, whose thread
function has just been spawned by `Start`. -/
def oneShotEntry : Sys :=
  reach (fun _ => true) 1 2 false 0 [Op.Start] [.ctrl, .ctrl]

/-- A concrete run: a never-started object constructed with `looping = true`
executes `WaitExit` and is started afterwards; the state is the one in which the
thread function has just been spawned. -/
def startAfterStop : Sys :=
  reach (fun _ => true) 1 2 true 0 [Op.WaitExit, Op.Start] (List.replicate 10 Tid.ctrl)

/-- A concrete run: the worker has finished after a stop request and the
controlling thread is about to call `HasFnExited`. -/
def workerFinished : Sys :=
  reach (fun _ => true) 1 2 true 0 [Op.Start, Op.WaitExit, Op.HasFnExited]
    (List.replicate 3 Tid.ctrl ++ List.replicate 4 Tid.worker ++ List.replicate 4 Tid.ctrl ++
      List.replicate 7 Tid.worker ++ List.replicate 4 Tid.ctrl)

/-- A concrete run: the controlling thread calls `Start` and then `WaitExit` (the
destructor), and executes both completely before the spawned thread has
executed its first statement. -/
def joinBeforeFirstStep : Sys :=
  reach (fun _ => true) 1 2 true 0 [Op.Start, Op.WaitExit] (List.replicate 11 Tid.ctrl)

/-- A concrete run: the controlling thread calls `Start` and then `HasFnExited`,
and executes both before the spawned thread has executed its first statement. -/
def pollBeforeFirstStep : Sys :=
  reach (fun _ => true) 1 2 true 0 [Op.Start, Op.HasFnExited] (List.replicate 7 Tid.ctrl)

/-- Two states agree on everything except the recorded callback outcomes, of
which they hold equally many. -/
def SameControl (a b : Sys) : Prop :=
  a.obj = b.obj ∧ a.wpc = b.wpc ∧ a.cpc = b.cpc ∧ a.todo = b.todo ∧ a.ret = b.ret ∧
    a.runs = b.runs ∧ a.calls = b.calls ∧ a.results.length = b.results.length ∧
    a.sleeps0 = b.sleeps0 ∧ a.sleeps1 = b.sleeps1 ∧ a.polls = b.polls ∧
    a.wsteps = b.wsteps ∧ a.unguarded = b.unguarded

/-- A concrete run with a callback that fails on every invocation: `Start` has
returned and the worker is inside its first callback invocation; nobody has
requested a stop. -/
def failingFirstCall : Sys :=
  reach (fun _ => false) 1 2 true 0 [Op.Start]
    (List.replicate 3 Tid.ctrl ++ List.replicate 4 Tid.worker)

/-- Program points of the controlling thread inside `WaitExit`. -/
def CPc.inWaitExit : CPc → Bool
  | .setLooping _ _ => true
  | .sleep1 => true
  | .hasFnExited true _ => true
  | _ => false

/-- Bookkeeping for one call of `WaitExit` issued in state `s0` with `rest` to
follow: before the call begins nothing is counted; during the call and after its
return, the polls made plus the poll in preparation equal the sleeps made; once
the script is shorter than `rest` a later call has begun. -/
def SleepsFirst (rest : List Op) (s0 s : Sys) : Prop :=
  (s.todo = Op.WaitExit :: rest ∧ s.cpc = .ready ∧ s.polls = s0.polls ∧
      s.sleeps1 = s0.sleeps1) ∨
    (s.todo = rest ∧ (s.cpc.inWaitExit = true ∨ s.cpc = .ready) ∧
      s.polls + s.cpc.pollPending + s0.sleeps1 = s0.polls + s.sleeps1) ∨
    s.todo.length < rest.length

/-- A concrete state: a freshly constructed, never started object whose
destructor is about to run. -/
def joinFresh : Sys :=
  boot (HelperThread.ctor 1 2 true 0) [Op.WaitExit]

theorem Inv_boot (p f : Nat) (l : Bool) (pr : Int) (todo : List Op) :
    Inv (boot (HelperThread.ctor p f l pr) todo) := by
  simp [Inv, boot, HelperThread.ctor, owner, WPc.holds, CPc.holds, CPc.stopOnly]

theorem Inv_stepWorker (cb : Nat → Bool) (s : Sys) (h : Inv s) : Inv (stepWorker cb s) := by
  obtain ⟨⟨p, f, m, pr, l, e⟩, w, c, todo, ret, runs, calls, res, s0, s1, po, ws, ug⟩ := s
  obtain ⟨h1, h2, h3⟩ := h
  simp only at h1 h2 h3
  subst h1
  rcases w with _ | ⟨_ | _, _ | _ | _⟩ | _ | _ | ⟨_ | _ | (_ | _)⟩ | _ | _ <;>
    rcases c with _ | _ | _ | ⟨_ | _, _ | _ | _⟩ | _ | ⟨_ | _, _ | _ | (_ | _)⟩ <;>
    simp_all [Inv, stepWorker, owner, WPc.holds, CPc.holds, CPc.stopOnly, Mutex.Acquire,
      Mutex.Release]

theorem Inv_stepCtrl (s : Sys) (h : Inv s) : Inv (stepCtrl s) := by
  obtain ⟨⟨p, f, m, pr, l, e⟩, w, c, todo, ret, runs, calls, res, s0, s1, po, ws, ug⟩ := s
  obtain ⟨h1, h2, h3⟩ := h
  simp only at h1 h2 h3
  subst h1
  rcases c with _ | _ | _ | ⟨_ | _, _ | _ | _⟩ | _ | ⟨_ | _, _ | _ | (_ | _)⟩
  · rcases todo with _ | ⟨_ | _ | _, rest⟩ <;>
      simp_all [Inv, stepCtrl, owner, WPc.holds, CPc.holds, CPc.stopOnly, Op.entry]
  all_goals
    rcases w with _ | ⟨_ | _, _ | _ | _⟩ | _ | _ | ⟨_ | _ | (_ | _)⟩ | _ | _ <;>
    simp_all [Inv, stepCtrl, owner, WPc.holds, CPc.holds, CPc.stopOnly, Mutex.Acquire,
      Mutex.Release, Thread.Run]

theorem Inv_step (cb : Nat → Bool) (t : Tid) (s : Sys) (h : Inv s) : Inv (step cb t s) := by
  cases t
  · exact Inv_stepCtrl s h
  · exact Inv_stepWorker cb s h

theorem Inv_run (cb : Nat → Bool) (sched : List Tid) (s : Sys) (h : Inv s) :
    Inv (run cb sched s) := by
  induction sched generalizing s with
  | nil => exact h
  | cons t ts ih => exact ih _ (Inv_step cb t s h)

theorem Inv_reach (cb : Nat → Bool) (p f : Nat) (l : Bool) (pr : Int) (todo : List Op)
    (sched : List Tid) : Inv (reach cb p f l pr todo sched) :=
  Inv_run cb sched _ (Inv_boot p f l pr todo)

/-! ### Accounting while `looping_` is false -/

theorem Acct_refl (s : Sys) (hl : s.obj.looping_ = false) : Acct s s := by
  simp [Acct, hl]

theorem Acct_trans {a b c : Sys} (h1 : Acct a b) (h2 : Acct b c) : Acct a c := by
  obtain ⟨_, h11, h12, h13, h14, h15, h16, h17⟩ := h1
  obtain ⟨h20, h21, h22, h23, h24, h25, h26, h27⟩ := h2
  refine ⟨h20, ?_, ?_, ?_, ?_, ?_, ?_, ?_⟩ <;> omega

theorem Acct_stepWorker (cb : Nat → Bool) (s : Sys) (h : Inv s)
    (hl : s.obj.looping_ = false) : Acct s (stepWorker cb s) := by
  obtain ⟨⟨p, f, m, pr, l, e⟩, w, c, todo, ret, runs, calls, res, s0, s1, po, ws, ug⟩ := s
  obtain ⟨h1, h2, h3⟩ := h
  simp only at h1 h2 h3 hl
  subst h1 hl
  rcases w with _ | ⟨_ | _, _ | _ | _⟩ | _ | _ | ⟨_ | _ | (_ | _)⟩ | _ | _ <;>
    rcases c with _ | _ | _ | ⟨_ | _, _ | _ | _⟩ | _ | ⟨_ | _, _ | _ | (_ | _)⟩ <;>
    simp_all [Acct, stepWorker, owner, WPc.holds, CPc.holds, Mutex.Acquire,
      Mutex.Release, WPc.owed, WPc.dist, WPc.naps]

theorem Acct_stepCtrl (s : Sys) (h : Inv s) (hl : s.obj.looping_ = false) :
    Acct s (stepCtrl s) := by
  obtain ⟨⟨p, f, m, pr, l, e⟩, w, c, todo, ret, runs, calls, res, s0, s1, po, ws, ug⟩ := s
  obtain ⟨h1, h2, h3⟩ := h
  simp only at h1 h2 h3 hl
  subst h1 hl
  rcases c with _ | _ | _ | ⟨_ | _, _ | _ | _⟩ | _ | ⟨_ | _, _ | _ | (_ | _)⟩
  · rcases todo with _ | ⟨_ | _ | _, rest⟩ <;> simp_all [Acct, stepCtrl]
  all_goals
    rcases w with _ | ⟨_ | _, _ | _ | _⟩ | _ | _ | ⟨_ | _ | (_ | _)⟩ | _ | _ <;>
    simp_all [Acct, stepCtrl, owner, WPc.holds, CPc.holds, CPc.stopOnly, Mutex.Acquire,
      Mutex.Release, Thread.Run, Thread.stopped, WPc.owed, WPc.dist, WPc.naps] <;> omega

theorem Acct_step (cb : Nat → Bool) (t : Tid) (s : Sys) (h : Inv s)
    (hl : s.obj.looping_ = false) : Acct s (step cb t s) := by
  cases t
  · exact Acct_stepCtrl s h hl
  · exact Acct_stepWorker cb s h hl

theorem Acct_run (cb : Nat → Bool) (sched : List Tid) (s : Sys) (h : Inv s)
    (hl : s.obj.looping_ = false) : Acct s (run cb sched s) := by
  induction sched generalizing s with
  | nil => exact Acct_refl s hl
  | cons t ts ih =>
    have h1 := Acct_step cb t s h hl
    exact Acct_trans h1 (ih _ (Inv_step cb t s h) h1.1)

/-! ### No pending `Start`: no thread function is spawned -/

theorem NoStart_step (cb : Nat → Bool) (t : Tid) (s : Sys) (h : NoStart s) :
    NoStart (step cb t s) ∧ (step cb t s).runs = s.runs := by
  obtain ⟨⟨p, f, m, pr, l, e⟩, w, c, todo, ret, runs, calls, res, s0, s1, po, ws, ug⟩ := s
  obtain ⟨h1, h2⟩ := h
  simp only at h1 h2
  cases t
  · rcases c with _ | _ | _ | ⟨_ | _, _ | _ | _⟩ | _ | ⟨_ | _, _ | _ | (_ | _)⟩
    · rcases todo with _ | ⟨_ | _ | _, rest⟩ <;>
        simp_all [NoStart, step, stepCtrl, Op.entry]
    all_goals
      simp_all [NoStart, step, stepCtrl, Mutex.Acquire] <;>
      (try split) <;> simp_all
  · rcases w with _ | ⟨_ | _, _ | _ | _⟩ | _ | _ | ⟨_ | _ | (_ | _)⟩ | _ | _ <;>
      simp_all [NoStart, step, stepWorker, Mutex.Acquire] <;>
      (try split) <;> simp_all

theorem NoStart_run (cb : Nat → Bool) (sched : List Tid) (s : Sys) (h : NoStart s) :
    NoStart (run cb sched s) ∧ (run cb sched s).runs = s.runs := by
  induction sched generalizing s with
  | nil => exact ⟨h, rfl⟩
  | cons t ts ih =>
    have h1 := NoStart_step cb t s h
    have h2 := ih _ h1.1
    exact ⟨h2.1, h2.2.trans h1.2⟩

/-! ### Schedules -/

theorem run_append (cb : Nat → Bool) (a b : List Tid) (s : Sys) :
    run cb (a ++ b) s = run cb b (run cb a s) := by
  induction a generalizing s with
  | nil => rfl
  | cons t ts ih => exact ih _

theorem run_replicate_succ (cb : Nat → Bool) (t : Tid) (n : Nat) (s : Sys) :
    run cb (List.replicate (n + 1) t) s = run cb (List.replicate n t) (step cb t s) := rfl

/-! ### The exit flag after the last write -/

theorem ExitOK_stepWorker (cb : Nat → Bool) (s : Sys) (h : ExitOK s) :
    ExitOK (stepWorker cb s) := by
  obtain ⟨⟨p, f, _ | m, pr, l, e⟩, w, c, todo, ret, runs, calls, res, s0, s1, po, ws, ug⟩ := s
  all_goals
    rcases w with _ | ⟨_ | _, _ | _ | _⟩ | _ | _ | ⟨_ | _ | (_ | _)⟩ | _ | _ <;>
    simp_all [ExitOK, stepWorker, Mutex.Acquire, Mutex.Release]

theorem ExitOK_stepCtrl (s : Sys) (h : ExitOK s) : ExitOK (stepCtrl s) := by
  obtain ⟨⟨p, f, _ | m, pr, l, e⟩, w, c, todo, ret, runs, calls, res, s0, s1, po, ws, ug⟩ := s
  all_goals
    rcases c with _ | _ | _ | ⟨_ | _, _ | _ | _⟩ | _ | ⟨_ | _, _ | _ | (_ | _)⟩
  all_goals first
    | (rcases todo with _ | ⟨_ | _ | _, rest⟩ <;> simp_all [ExitOK, stepCtrl] ; done)
    | (rcases w with _ | ⟨_ | _, _ | _ | _⟩ | _ | _ | ⟨_ | _ | (_ | _)⟩ | _ | _ <;>
        simp_all [ExitOK, stepCtrl, Mutex.Acquire, Mutex.Release, Thread.Run])

theorem ExitOK_step (cb : Nat → Bool) (t : Tid) (s : Sys) (h : ExitOK s) :
    ExitOK (step cb t s) := by
  cases t
  · exact ExitOK_stepCtrl s h
  · exact ExitOK_stepWorker cb s h

theorem ExitOK_run (cb : Nat → Bool) (sched : List Tid) (s : Sys) (h : ExitOK s) :
    ExitOK (run cb sched s) := by
  induction sched generalizing s with
  | nil => exact h
  | cons t ts ih => exact ih _ (ExitOK_step cb t s h)

/-! ### Progress of the worker -/

theorem worker_advances (cb : Nat → Bool) (s : Sys) (n : Nat) (h : Inv s)
    (hl : s.obj.looping_ = false) (hc : s.cpc.holds = false) (hw : s.wpc ≠ .idle)
    (hd : s.wpc.dist = n + 1) :
    (stepWorker cb s).wpc.dist = n ∧ (stepWorker cb s).wpc ≠ .idle ∧
      (stepWorker cb s).cpc = s.cpc ∧ (stepWorker cb s).todo = s.todo ∧
      (stepWorker cb s).runs = s.runs := by
  obtain ⟨⟨p, f, m, pr, l, e⟩, w, c, todo, ret, runs, calls, res, s0, s1, po, ws, ug⟩ := s
  obtain ⟨h1, h2, h3⟩ := h
  simp only at h1 h2 h3 hl hc hw hd
  subst h1 hl
  rcases w with _ | ⟨_ | _, _ | _ | _⟩ | _ | _ | ⟨_ | _ | (_ | _)⟩ | _ | _ <;>
    simp_all [stepWorker, owner, WPc.holds, Mutex.Acquire, Mutex.Release, WPc.dist]

theorem worker_alone_finishes (cb : Nat → Bool) (n : Nat) (s : Sys) (h : Inv s)
    (hl : s.obj.looping_ = false) (hc : s.cpc.holds = false) (hw : s.wpc ≠ .idle)
    (hd : s.wpc.dist = n) :
    (run cb (List.replicate n Tid.worker) s).wpc = .done ∧
      (run cb (List.replicate n Tid.worker) s).cpc = s.cpc ∧
      (run cb (List.replicate n Tid.worker) s).todo = s.todo ∧
      (run cb (List.replicate n Tid.worker) s).runs = s.runs := by
  induction n generalizing s with
  | zero =>
    refine ⟨?_, rfl, rfl, rfl⟩
    show s.wpc = .done
    rcases hs : s.wpc with _ | ⟨_ | _, _ | _ | _⟩ | _ | _ | ⟨_ | _ | (_ | _)⟩ | _ | _ <;>
      simp_all [WPc.dist]
  | succ k ih =>
    obtain ⟨a1, a2, a3, a4, a5⟩ := worker_advances cb s k h hl hc hw hd
    have hi := Inv_stepWorker cb s h
    have hl2 := (Acct_stepWorker cb s h hl).1
    rw [run_replicate_succ]
    have := ih (step cb Tid.worker s) hi hl2 (by rw [show (step cb Tid.worker s).cpc = s.cpc from a3]; exact hc) a2 a1
    exact ⟨this.1, this.2.1.trans a3, this.2.2.1.trans a4, this.2.2.2.trans a5⟩

theorem ctrl_unblocks (cb : Nat → Bool) (s : Sys) (h : Inv s) :
    (run cb (List.replicate s.cpc.unblock Tid.ctrl) s).cpc.holds = false ∧
      (run cb (List.replicate s.cpc.unblock Tid.ctrl) s).wpc = s.wpc ∧
      (run cb (List.replicate s.cpc.unblock Tid.ctrl) s).todo = s.todo ∧
      (run cb (List.replicate s.cpc.unblock Tid.ctrl) s).runs = s.runs := by
  obtain ⟨⟨p, f, m, pr, l, _ | _⟩, w, c, todo, ret, runs, calls, res, s0, s1, po, ws, ug⟩ := s
  all_goals
    rcases c with _ | _ | _ | ⟨_ | _, _ | _ | _⟩ | _ | ⟨_ | _, _ | _ | (_ | _)⟩ <;>
    simp [CPc.unblock, run, List.replicate, step, stepCtrl, CPc.holds, Mutex.Release]

theorem finish_reaches_done (cb : Nat → Bool) (s : Sys) (h : Inv s)
    (hl : s.obj.looping_ = false) (hw : s.wpc ≠ .idle) :
    (run cb (finish s) s).wpc = .done ∧ (run cb (finish s) s).todo = s.todo ∧
      (run cb (finish s) s).runs = s.runs := by
  obtain ⟨b1, b2, b3, b4⟩ := ctrl_unblocks cb s h
  have hi := Inv_run cb (List.replicate s.cpc.unblock Tid.ctrl) s h
  have hl2 := (Acct_run cb (List.replicate s.cpc.unblock Tid.ctrl) s h hl).1
  unfold finish
  rw [run_append]
  have := worker_alone_finishes cb s.wpc.dist _ hi hl2 b1 (by rw [b2]; exact hw)
    (by rw [b2])
  exact ⟨this.1, this.2.2.1.trans b3, this.2.2.2.trans b4⟩

/-! ### The polling loop of `WaitExit` -/

theorem InWait_stepWorker (cb : Nat → Bool) (T : List Op) (s : Sys) (h : InWait T s) :
    InWait T (stepWorker cb s) := by
  obtain ⟨⟨p, f, _ | m, pr, l, e⟩, w, c, todo, ret, runs, calls, res, s0, s1, po, ws, ug⟩ := s
  all_goals
    rcases w with _ | ⟨_ | _, _ | _ | _⟩ | _ | _ | ⟨_ | _ | (_ | _)⟩ | _ | _ <;>
    simpa [InWait, stepWorker, Mutex.Acquire, Mutex.Release] using h

theorem InWait_stepCtrl (T : List Op) (s : Sys) (h : InWait T s) :
    InWait T (stepCtrl s) := by
  obtain ⟨⟨p, f, _ | m, pr, l, _ | _⟩, w, c, todo, ret, runs, calls, res, s0, s1, po, ws, ug⟩ := s
  all_goals
    rcases c with _ | _ | _ | ⟨_ | _, _ | _ | _⟩ | _ | ⟨_ | _, _ | _ | (_ | _)⟩
  all_goals first
    | (rcases todo with _ | ⟨op, rest⟩ <;>
        rcases h with ⟨h1, h2⟩ | h1 <;>
        simp_all [InWait, stepCtrl, CPc.requested] <;>
        (try subst h1) <;> (try simp) <;> omega)
    | (rcases h with ⟨h1, h2⟩ | h1 <;>
        simp_all [InWait, stepCtrl, CPc.requested, Mutex.Acquire, Mutex.Release])

theorem InWait_step (cb : Nat → Bool) (T : List Op) (t : Tid) (s : Sys) (h : InWait T s) :
    InWait T (step cb t s) := by
  cases t
  · exact InWait_stepCtrl T s h
  · exact InWait_stepWorker cb T s h

theorem InWait_run (cb : Nat → Bool) (T : List Op) (sched : List Tid) (s : Sys)
    (h : InWait T s) : InWait T (run cb sched s) := by
  induction sched generalizing s with
  | nil => exact h
  | cons t ts ih => exact ih _ (InWait_step cb T t s h)

theorem waitExit_returns (cb : Nat → Bool) (s : Sys) (h : Inv s) (hw : s.wpc = .done)
    (he : s.obj.fnExited_ = true)
    (hc : s.cpc.requested = true ∨ (s.cpc = .ready ∧ s.ret = some true)) :
    ∃ n, n ≤ 5 ∧ (run cb (List.replicate n Tid.ctrl) s).cpc = .ready ∧
      (run cb (List.replicate n Tid.ctrl) s).todo = s.todo ∧
      (run cb (List.replicate n Tid.ctrl) s).ret = some true := by
  obtain ⟨⟨p, f, m, pr, l, e⟩, w, c, todo, ret, runs, calls, res, s0, s1, po, ws, ug⟩ := s
  obtain ⟨h1, h2, h3⟩ := h
  simp only at h1 h2 h3 hw he hc
  subst h1 hw he
  rcases c with _ | _ | _ | ⟨_ | _, _ | _ | _⟩ | _ | ⟨_ | _, _ | _ | (_ | _)⟩ <;>
    simp [CPc.requested] at hc
  · exact ⟨0, by omega, by simp [run, hc]⟩
  · exact ⟨5, by omega, by
      simp [run, List.replicate, step, stepCtrl, owner, WPc.holds, CPc.holds,
        Mutex.Acquire, Mutex.Release]⟩
  · exact ⟨4, by omega, by
      simp [run, List.replicate, step, stepCtrl, owner, WPc.holds, CPc.holds,
        Mutex.Acquire, Mutex.Release]⟩
  · exact ⟨3, by omega, by
      simp [run, List.replicate, step, stepCtrl, owner, WPc.holds, CPc.holds,
        Mutex.Acquire, Mutex.Release]⟩
  · exact ⟨2, by omega, by
      simp [run, List.replicate, step, stepCtrl, owner, WPc.holds, CPc.holds,
        Mutex.Acquire, Mutex.Release]⟩
  · exact ⟨5, by omega, by
      simp [run, List.replicate, step, stepCtrl, owner, WPc.holds, CPc.holds,
        Mutex.Acquire, Mutex.Release]⟩
  · exact ⟨1, by omega, by
      simp [run, List.replicate, step, stepCtrl, owner, WPc.holds, CPc.holds,
        Mutex.Acquire, Mutex.Release]⟩

theorem wpc_ne_idle_step (cb : Nat → Bool) (t : Tid) (s : Sys) (h : s.wpc ≠ .idle) :
    (step cb t s).wpc ≠ .idle := by
  obtain ⟨⟨p, f, _ | m, pr, l, e⟩, w, c, todo, ret, runs, calls, res, s0, s1, po, ws, ug⟩ := s
  all_goals cases t
  · rcases c with _ | _ | _ | ⟨_ | _, _ | _ | _⟩ | _ | ⟨_ | _, _ | _ | (_ | _)⟩
    all_goals first
      | (rcases todo with _ | ⟨op, rest⟩ <;> simpa [step, stepCtrl] using h)
      | (simpa [step, stepCtrl, Mutex.Acquire, Mutex.Release] using h)
      | (rcases w with _ | ⟨_ | _, _ | _ | _⟩ | _ | _ | ⟨_ | _ | (_ | _)⟩ | _ | _ <;>
          simp_all [step, stepCtrl, Thread.Run])
  · rcases w with _ | ⟨_ | _, _ | _ | _⟩ | _ | _ | ⟨_ | _ | (_ | _)⟩ | _ | _ <;>
      simp_all [step, stepWorker, Mutex.Acquire, Mutex.Release]
  · rcases c with _ | _ | _ | ⟨_ | _, _ | _ | _⟩ | _ | ⟨_ | _, _ | _ | (_ | _)⟩
    all_goals first
      | (rcases todo with _ | ⟨op, rest⟩ <;> simpa [step, stepCtrl] using h)
      | (simpa [step, stepCtrl, Mutex.Acquire, Mutex.Release] using h)
      | (rcases w with _ | ⟨_ | _, _ | _ | _⟩ | _ | _ | ⟨_ | _ | (_ | _)⟩ | _ | _ <;>
          simp_all [step, stepCtrl, Thread.Run])
  · rcases w with _ | ⟨_ | _, _ | _ | _⟩ | _ | _ | ⟨_ | _ | (_ | _)⟩ | _ | _ <;>
      simp_all [step, stepWorker, Mutex.Acquire, Mutex.Release]

theorem wpc_ne_idle_run (cb : Nat → Bool) (sched : List Tid) (s : Sys) (h : s.wpc ≠ .idle) :
    (run cb sched s).wpc ≠ .idle := by
  induction sched generalizing s with
  | nil => exact h
  | cons t ts ih => exact ih _ (wpc_ne_idle_step cb t s h)

theorem dist_zero (w : WPc) (h : w ≠ .idle) (hd : w.dist = 0) : w = .done := by
  rcases w with _ | ⟨_ | _, _ | _ | _⟩ | _ | _ | ⟨_ | _ | (_ | _)⟩ | _ | _ <;>
    simp_all [WPc.dist]

/-! ### Reachable states -/

theorem Good_boot (p f : Nat) (l : Bool) (pr : Int) (todo : List Op) :
    Good (boot (HelperThread.ctor p f l pr) todo) := by
  refine ⟨Inv_boot p f l pr todo, ?_⟩
  simp [boot, HelperThread.ctor, WPc.exited, WPc.leaving, CPc.requested]

theorem Good_stepWorker (cb : Nat → Bool) (s : Sys) (h : Good s) : Good (stepWorker cb s) := by
  refine ⟨Inv_stepWorker cb s h.1, ?_⟩
  obtain ⟨⟨p, f, m, pr, l, e⟩, w, c, todo, ret, runs, calls, res, s0, s1, po, ws, ug⟩ := s
  obtain ⟨⟨h1, h2, h3⟩, h4, h5, h6, h7, h8⟩ := h
  simp only at h1 h2 h3 h4 h5 h6 h7 h8
  subst h1 h4 h8
  rcases w with _ | ⟨_ | _, _ | _ | _⟩ | _ | _ | ⟨_ | _ | (_ | _)⟩ | _ | _ <;>
    rcases c with _ | _ | _ | ⟨_ | _, _ | _ | _⟩ | _ | ⟨_ | _, _ | _ | (_ | _)⟩ <;>
    simp_all [stepWorker, owner, WPc.holds, CPc.holds, Mutex.Acquire, Mutex.Release,
      WPc.exited, WPc.leaving, CPc.requested, unlockedAccess]
  all_goals cases l <;> simp

theorem Good_stepCtrl (s : Sys) (h : Good s) : Good (stepCtrl s) := by
  refine ⟨Inv_stepCtrl s h.1, ?_⟩
  obtain ⟨⟨p, f, m, pr, l, e⟩, w, c, todo, ret, runs, calls, res, s0, s1, po, ws, ug⟩ := s
  obtain ⟨⟨h1, h2, h3⟩, h4, h5, h6, h7, h8⟩ := h
  simp only at h1 h2 h3 h4 h5 h6 h7 h8
  subst h1 h4 h8
  rcases c with _ | _ | _ | ⟨_ | _, _ | _ | _⟩ | _ | ⟨_ | _, _ | _ | (_ | _)⟩
  · rcases todo with _ | ⟨_ | _ | _, rest⟩ <;>
      simp_all [stepCtrl, Op.entry, CPc.requested]
  all_goals
    rcases w with _ | ⟨_ | _, _ | _ | _⟩ | _ | _ | ⟨_ | _ | (_ | _)⟩ | _ | _ <;>
    simp_all [stepCtrl, owner, WPc.holds, CPc.holds, CPc.stopOnly, Mutex.Acquire,
      Mutex.Release, Thread.Run, WPc.exited, WPc.leaving, CPc.requested, unlockedAccess]

theorem Good_step (cb : Nat → Bool) (t : Tid) (s : Sys) (h : Good s) : Good (step cb t s) := by
  cases t
  · exact Good_stepCtrl s h
  · exact Good_stepWorker cb s h

theorem Good_run (cb : Nat → Bool) (sched : List Tid) (s : Sys) (h : Good s) :
    Good (run cb sched s) := by
  induction sched generalizing s with
  | nil => exact h
  | cons t ts ih => exact ih _ (Good_step cb t s h)

theorem Good_reach (cb : Nat → Bool) (p f : Nat) (l : Bool) (pr : Int) (todo : List Op)
    (sched : List Tid) : Good (reach cb p f l pr todo sched) :=
  Good_run cb sched _ (Good_boot p f l pr todo)

/-! ## Claims -/

/-- C1 (bounded shutdown).  Let `s` be the state right after `WaitExit` has
assigned `looping_ = false` (the controlling thread still owns the mutex), with
the worker inside the loop of `ThreadFunction` and no `Start` pending.  Then, for
every callback and every schedule: at most one callback invocation begins after
the request; the worker takes at most 9 further steps, and after exactly
`s.wpc.dist` of them `ThreadFunction` has returned; once it has returned,
`fnExited_` is true and `WaitExit` returns, with its poll reading `true`, within
5 steps of the controlling thread.  From every state on the way, the schedule
`finish` (the controlling thread leaves its guarded section, then the worker runs
alone) does make the worker return. -/
theorem C1_bounded_shutdown (cb : Nat → Bool) (s : Sys) (hinv : Inv s)
    (hloop : s.wpc.inLoop = true) (hreq : s.cpc = .setLooping false .unlock)
    (hstop : s.obj.looping_ = false) (hns : Op.Start ∉ s.todo) :
    ∀ sched : List Tid,
        (run cb sched s).calls ≤ s.calls + 1 ∧
        (run cb sched s).wsteps ≤ s.wsteps + 9 ∧
        ((run cb sched s).wsteps = s.wsteps + s.wpc.dist → (run cb sched s).wpc = .done) ∧
        ((run cb sched s).wpc = .done →
          (run cb sched s).obj.fnExited_ = true ∧
          ((run cb sched s).todo = s.todo →
            ∃ n, n ≤ 5 ∧
              (run cb (List.replicate n Tid.ctrl) (run cb sched s)).cpc = .ready ∧
              (run cb (List.replicate n Tid.ctrl) (run cb sched s)).todo = s.todo ∧
              (run cb (List.replicate n Tid.ctrl) (run cb sched s)).ret = some true)) ∧
        (run cb (finish (run cb sched s)) (run cb sched s)).wpc = .done := by
  have hidle : s.wpc ≠ .idle := by
    intro h; rw [h] at hloop; simp [WPc.inLoop] at hloop
  have hexit : ExitOK s := by
    intro h
    rcases h with h | h <;> rw [h] at hloop <;> simp [WPc.inLoop] at hloop
  have hnostart : NoStart s := ⟨by rw [hreq]; simp, hns⟩
  have hwait : InWait s.todo s := Or.inl ⟨rfl, Or.inl (by rw [hreq]; rfl)⟩
  have hbound : s.wpc.owed ≤ 1 ∧ s.wpc.dist ≤ 9 := by
    obtain ⟨h1, h2, _⟩ := hinv
    rw [hreq] at h2
    rcases hs : s.wpc with _ | ⟨_ | _, _ | _ | _⟩ | _ | _ | ⟨_ | _ | (_ | _)⟩ | _ | _ <;>
      simp_all [WPc.inLoop, WPc.owed, WPc.dist, WPc.holds, CPc.holds]
  intro sched
  obtain ⟨a0, a1, a2, _, _, _, _, _⟩ := Acct_run cb sched s hinv hstop
  have hr := (NoStart_run cb sched s hnostart).2
  have hne := wpc_ne_idle_run cb sched s hidle
  refine ⟨by omega, by omega, fun hw => ?_, fun hd => ?_,
    (finish_reaches_done cb _ (Inv_run cb sched s hinv) a0 hne).1⟩
  · exact dist_zero _ hne (by omega)
  · have he := ExitOK_run cb sched s hexit (Or.inr hd)
    refine ⟨he, fun ht => ?_⟩
    have hiw := InWait_run cb s.todo sched s hwait
    rcases hiw with ⟨_, hc⟩ | hlt
    · obtain ⟨n, hn, c1, c2, c3⟩ :=
        waitExit_returns cb (run cb sched s) (Inv_run cb sched s hinv) hd he hc
      exact ⟨n, hn, c1, c2.trans ht, c3⟩
    · rw [ht] at hlt; omega

/-- C1 at `stopDuringCallback`: the hypotheses hold there, so the conclusions do. -/
theorem C1_bounded_shutdown_witness :
    (Inv stopDuringCallback ∧ stopDuringCallback.wpc = .inFn ∧
      stopDuringCallback.cpc = .setLooping false .unlock ∧
      stopDuringCallback.obj.looping_ = false ∧ Op.Start ∉ stopDuringCallback.todo) ∧
    (∀ sched : List Tid,
        (run (fun _ => true) sched stopDuringCallback).calls ≤ stopDuringCallback.calls + 1 ∧
        (run (fun _ => true) sched stopDuringCallback).wsteps
          ≤ stopDuringCallback.wsteps + 9 ∧
        ((run (fun _ => true) sched stopDuringCallback).wsteps
            = stopDuringCallback.wsteps + stopDuringCallback.wpc.dist →
          (run (fun _ => true) sched stopDuringCallback).wpc = .done) ∧
        ((run (fun _ => true) sched stopDuringCallback).wpc = .done →
          (run (fun _ => true) sched stopDuringCallback).obj.fnExited_ = true ∧
          ((run (fun _ => true) sched stopDuringCallback).todo = stopDuringCallback.todo →
            ∃ n, n ≤ 5 ∧
              (run (fun _ => true) (List.replicate n Tid.ctrl)
                (run (fun _ => true) sched stopDuringCallback)).cpc = .ready ∧
              (run (fun _ => true) (List.replicate n Tid.ctrl)
                (run (fun _ => true) sched stopDuringCallback)).todo
                  = stopDuringCallback.todo ∧
              (run (fun _ => true) (List.replicate n Tid.ctrl)
                (run (fun _ => true) sched stopDuringCallback)).ret = some true)) ∧
        (run (fun _ => true) (finish (run (fun _ => true) sched stopDuringCallback))
          (run (fun _ => true) sched stopDuringCallback)).wpc = .done) :=
  ⟨by decide,
    C1_bounded_shutdown (fun _ => true) stopDuringCallback
      (by decide) (by decide) (by decide) (by decide) (by decide)⟩

/-! ### A thread function that runs with `looping_` false -/

theorem stopped_run (cb : Nat → Bool) (sched : List Tid) (s : Sys) (hinv : Inv s)
    (hl : s.obj.looping_ = false) (hns : NoStart s) (hx : ExitOK s) (hw : s.wpc ≠ .idle) :
    (run cb sched s).obj.looping_ = false ∧
      (run cb sched s).calls + (run cb sched s).wpc.owed = s.calls + s.wpc.owed ∧
      (run cb sched s).wsteps + (run cb sched s).wpc.dist = s.wsteps + s.wpc.dist ∧
      (run cb sched s).sleeps0 + (run cb sched s).wpc.naps = s.sleeps0 + s.wpc.naps ∧
      s.calls ≤ (run cb sched s).calls ∧ s.sleeps0 ≤ (run cb sched s).sleeps0 ∧
      ((run cb sched s).wpc = .done → (run cb sched s).obj.fnExited_ = true) ∧
      (run cb sched s).wpc ≠ .idle := by
  obtain ⟨a0, a1, a2, a3, _, a5, a6, _⟩ := Acct_run cb sched s hinv hl
  have hr := (NoStart_run cb sched s hns).2
  refine ⟨a0, by omega, by omega, a3, a5, a6, fun hd => ?_, wpc_ne_idle_run cb sched s hw⟩
  exact ExitOK_run cb sched s hx (Or.inr hd)

theorem atLeastOnce_stepWorker (cb : Nat → Bool) (c0 : Nat) (s : Sys)
    (h : c0 ≤ s.calls ∧ (c0 + 1 ≤ s.calls ∨ s.wpc.beforeCall = true)) :
    c0 ≤ (stepWorker cb s).calls ∧
      (c0 + 1 ≤ (stepWorker cb s).calls ∨ (stepWorker cb s).wpc.beforeCall = true) := by
  obtain ⟨⟨p, f, _ | m, pr, l, e⟩, w, c, todo, ret, runs, calls, res, s0, s1, po, ws, ug⟩ := s
  all_goals
    rcases w with _ | ⟨_ | _, _ | _ | _⟩ | _ | _ | ⟨_ | _ | (_ | _)⟩ | _ | _ <;>
    (simp_all [stepWorker, Mutex.Acquire, Mutex.Release, WPc.beforeCall]; try omega)

theorem atLeastOnce_stepCtrl (c0 : Nat) (s : Sys)
    (h : c0 ≤ s.calls ∧ (c0 + 1 ≤ s.calls ∨ s.wpc.beforeCall = true)) :
    c0 ≤ (stepCtrl s).calls ∧
      (c0 + 1 ≤ (stepCtrl s).calls ∨ (stepCtrl s).wpc.beforeCall = true) := by
  obtain ⟨⟨p, f, _ | m, pr, l, e⟩, w, c, todo, ret, runs, calls, res, s0, s1, po, ws, ug⟩ := s
  all_goals
    rcases c with _ | _ | _ | ⟨_ | _, _ | _ | _⟩ | _ | ⟨_ | _, _ | _ | (_ | _)⟩
  all_goals first
    | (rcases todo with _ | ⟨op, rest⟩ <;> simpa [stepCtrl] using h)
    | (simpa [stepCtrl, Mutex.Acquire, Mutex.Release] using h)
    | (rcases w with _ | ⟨_ | _, _ | _ | _⟩ | _ | _ | ⟨_ | _ | (_ | _)⟩ | _ | _ <;>
        simp_all [stepCtrl, Thread.Run, WPc.beforeCall])

theorem atLeastOnce_step (cb : Nat → Bool) (c0 : Nat) (t : Tid) (s : Sys)
    (h : c0 ≤ s.calls ∧ (c0 + 1 ≤ s.calls ∨ s.wpc.beforeCall = true)) :
    c0 ≤ (step cb t s).calls ∧
      (c0 + 1 ≤ (step cb t s).calls ∨ (step cb t s).wpc.beforeCall = true) := by
  cases t
  · exact atLeastOnce_stepCtrl c0 s h
  · exact atLeastOnce_stepWorker cb c0 s h

theorem atLeastOnce_run (cb : Nat → Bool) (c0 : Nat) (sched : List Tid) (s : Sys)
    (h : c0 ≤ s.calls ∧ (c0 + 1 ≤ s.calls ∨ s.wpc.beforeCall = true)) :
    c0 ≤ (run cb sched s).calls ∧
      (c0 + 1 ≤ (run cb sched s).calls ∨ (run cb sched s).wpc.beforeCall = true) := by
  induction sched generalizing s with
  | nil => exact h
  | cons t ts ih => exact ih _ (atLeastOnce_step cb c0 t s h)

/-- C2, as stated, fails: an object constructed with `looping = false` is started;
`looping_` is false when `ThreadFunction` is entered and stays false, and the
callback is invoked once, not zero times, before the worker exits. -/
theorem C2_counterexample :
    oneShotEntry.wpc = .setFnExit false .lock ∧ oneShotEntry.obj.looping_ = false ∧
    oneShotEntry.calls = 0 ∧
    (∀ k, k ≤ 11 →
      (run (fun _ => true) (List.replicate k Tid.worker) oneShotEntry).obj.looping_ = false) ∧
    (run (fun _ => true) (List.replicate 11 Tid.worker) oneShotEntry).wpc = .done ∧
    (run (fun _ => true) (List.replicate 11 Tid.worker) oneShotEntry).calls = 1 := by
  decide

/-- C2, amended.  Each iteration of the worker loop invokes the callback first
and checks the stop request afterwards.  With `looping_` false and no `Start`
pending: (1) a worker at the start of an iteration invokes the callback on its
next step; (2) from the check after the callback, no further invocation begins
under any schedule, the worker ends with `fnExited_` true, and the schedule
`finish s` makes it return; (3) a thread function entered with `looping_` false
keeps it false, begins at most one invocation, has begun exactly one when it
returns, and does return under `finish s`. -/
theorem C2_check_follows_callback (cb : Nat → Bool) (s : Sys) (hinv : Inv s)
    (hstop : s.obj.looping_ = false) (hns : NoStart s) :
    (s.wpc = .callFn →
      (stepWorker cb s).calls = s.calls + 1 ∧ (stepWorker cb s).wpc = .inFn) ∧
    (s.wpc = .isLooping .lock →
      (∀ sched : List Tid,
        (run cb sched s).calls = s.calls ∧
        ((run cb sched s).wpc = .done → (run cb sched s).obj.fnExited_ = true)) ∧
      (run cb (finish s) s).wpc = .done) ∧
    (s.wpc = .setFnExit false .lock →
      (∀ sched : List Tid,
        (run cb sched s).obj.looping_ = false ∧
        (run cb sched s).calls ≤ s.calls + 1 ∧
        ((run cb sched s).wpc = .done →
          (run cb sched s).calls = s.calls + 1 ∧ (run cb sched s).obj.fnExited_ = true)) ∧
      (run cb (finish s) s).wpc = .done) := by
  refine ⟨fun hw => ?_, fun hw => ?_, fun hw => ?_⟩
  · simp [stepWorker, hw]
  · have hidle : s.wpc ≠ .idle := by rw [hw]; simp
    have hx : ExitOK s := by intro h; rw [hw] at h; simp at h
    refine ⟨fun sched => ?_, (finish_reaches_done cb s hinv hstop hidle).1⟩
    obtain ⟨_, b1, _, _, b4, _, b6, _⟩ := stopped_run cb sched s hinv hstop hns hx hidle
    rw [hw] at b1
    simp only [WPc.owed] at b1
    exact ⟨by omega, b6⟩
  · have hidle : s.wpc ≠ .idle := by rw [hw]; simp
    have hx : ExitOK s := by intro h; rw [hw] at h; simp at h
    refine ⟨fun sched => ?_, (finish_reaches_done cb s hinv hstop hidle).1⟩
    obtain ⟨b0, b1, _, _, b4, _, b6, _⟩ := stopped_run cb sched s hinv hstop hns hx hidle
    rw [hw] at b1
    simp only [WPc.owed] at b1
    refine ⟨b0, by omega, fun hd => ⟨?_, b6 hd⟩⟩
    rw [hd] at b1
    simp only [WPc.owed] at b1
    omega

/-- C2 (amended) at `oneShotEntry`, where the third case applies. -/
theorem C2_check_follows_callback_witness :
    (Inv oneShotEntry ∧ oneShotEntry.obj.looping_ = false ∧ NoStart oneShotEntry ∧
      oneShotEntry.wpc = .setFnExit false .lock) ∧
    ((oneShotEntry.wpc = .callFn →
      (stepWorker (fun _ => true) oneShotEntry).calls = oneShotEntry.calls + 1 ∧
        (stepWorker (fun _ => true) oneShotEntry).wpc = .inFn) ∧
    (oneShotEntry.wpc = .isLooping .lock →
      (∀ sched : List Tid,
        (run (fun _ => true) sched oneShotEntry).calls = oneShotEntry.calls ∧
        ((run (fun _ => true) sched oneShotEntry).wpc = .done →
          (run (fun _ => true) sched oneShotEntry).obj.fnExited_ = true)) ∧
      (run (fun _ => true) (finish oneShotEntry) oneShotEntry).wpc = .done) ∧
    (oneShotEntry.wpc = .setFnExit false .lock →
      (∀ sched : List Tid,
        (run (fun _ => true) sched oneShotEntry).obj.looping_ = false ∧
        (run (fun _ => true) sched oneShotEntry).calls ≤ oneShotEntry.calls + 1 ∧
        ((run (fun _ => true) sched oneShotEntry).wpc = .done →
          (run (fun _ => true) sched oneShotEntry).calls = oneShotEntry.calls + 1 ∧
            (run (fun _ => true) sched oneShotEntry).obj.fnExited_ = true)) ∧
      (run (fun _ => true) (finish oneShotEntry) oneShotEntry).wpc = .done)) :=
  ⟨by decide,
    C2_check_follows_callback (fun _ => true) oneShotEntry (by decide) (by decide) (by decide)⟩

/-- C8 (one-shot mode).  Let `s` be a state in which a thread function has just
been entered.  (1) Whatever the value of `looping_` and whatever the schedule,
when the thread function has returned the callback has been invoked at least
once more than in `s`.  (2) If `looping_` is false and no `Start` is pending,
then under every schedule `looping_` stays false, the worker never sleeps, at
most one invocation begins and the worker takes at most 11 steps; when
`ThreadFunction` has returned, exactly one invocation has begun, `fnExited_` is
true and exactly 11 steps were taken; and the schedule `finish s` makes it
return. -/
theorem C8_one_shot (cb : Nat → Bool) (s : Sys) (hinv : Inv s)
    (hentry : s.wpc = .setFnExit false .lock) :
    (∀ sched : List Tid,
      (run cb sched s).wpc = .done → s.calls + 1 ≤ (run cb sched s).calls) ∧
    (s.obj.looping_ = false → NoStart s →
      (∀ sched : List Tid,
        (run cb sched s).obj.looping_ = false ∧
        (run cb sched s).sleeps0 = s.sleeps0 ∧
        (run cb sched s).calls ≤ s.calls + 1 ∧
        (run cb sched s).wsteps ≤ s.wsteps + 11 ∧
        ((run cb sched s).wpc = .done →
          (run cb sched s).calls = s.calls + 1 ∧
          (run cb sched s).obj.fnExited_ = true ∧
          (run cb sched s).wsteps = s.wsteps + 11)) ∧
      (run cb (finish s) s).wpc = .done) := by
  have hidle : s.wpc ≠ .idle := by rw [hentry]; simp
  have hx : ExitOK s := by intro h; rw [hentry] at h; simp at h
  refine ⟨fun sched hd => ?_, fun hstop hns => ?_⟩
  · have h0 : s.calls ≤ s.calls ∧ (s.calls + 1 ≤ s.calls ∨ s.wpc.beforeCall = true) :=
      ⟨le_refl _, Or.inr (by rw [hentry]; rfl)⟩
    rcases (atLeastOnce_run cb s.calls sched s h0).2 with h | h
    · exact h
    · rw [hd] at h; simp [WPc.beforeCall] at h
  · refine ⟨fun sched => ?_, (finish_reaches_done cb s hinv hstop hidle).1⟩
    obtain ⟨b0, b1, b2, b3, b4, b5, b6, _⟩ := stopped_run cb sched s hinv hstop hns hx hidle
    rw [hentry] at b1 b2 b3
    simp only [WPc.owed, WPc.dist, WPc.naps] at b1 b2 b3
    refine ⟨b0, by omega, by omega, by omega, fun hd => ?_⟩
    rw [hd] at b1 b2
    simp only [WPc.owed, WPc.dist] at b1 b2
    exact ⟨by omega, b6 hd, by omega⟩

/-- C8 at `oneShotEntry`, an object constructed with `looping = false`. -/
theorem C8_one_shot_witness :
    (Inv oneShotEntry ∧ oneShotEntry.wpc = .setFnExit false .lock ∧
      oneShotEntry.obj.looping_ = false ∧ NoStart oneShotEntry) ∧
    ((∀ sched : List Tid,
      (run (fun _ => true) sched oneShotEntry).wpc = .done →
        oneShotEntry.calls + 1 ≤ (run (fun _ => true) sched oneShotEntry).calls) ∧
    (oneShotEntry.obj.looping_ = false → NoStart oneShotEntry →
      (∀ sched : List Tid,
        (run (fun _ => true) sched oneShotEntry).obj.looping_ = false ∧
        (run (fun _ => true) sched oneShotEntry).sleeps0 = oneShotEntry.sleeps0 ∧
        (run (fun _ => true) sched oneShotEntry).calls ≤ oneShotEntry.calls + 1 ∧
        (run (fun _ => true) sched oneShotEntry).wsteps ≤ oneShotEntry.wsteps + 11 ∧
        ((run (fun _ => true) sched oneShotEntry).wpc = .done →
          (run (fun _ => true) sched oneShotEntry).calls = oneShotEntry.calls + 1 ∧
          (run (fun _ => true) sched oneShotEntry).obj.fnExited_ = true ∧
          (run (fun _ => true) sched oneShotEntry).wsteps = oneShotEntry.wsteps + 11)) ∧
      (run (fun _ => true) (finish oneShotEntry) oneShotEntry).wpc = .done)) :=
  ⟨by decide, C8_one_shot (fun _ => true) oneShotEntry (by decide) (by decide)⟩

/-- C10 (the stop request is permanent).  Let `s` be a state reachable from a
freshly constructed object.  (1) Once `WaitExit` has executed its assignment,
`looping_` is false.  (2) If `looping_` is false, no step of either thread makes
it true, so it is false after every schedule.  (3) If moreover a thread function
has just been entered in `s`, then as long as no further thread function is
spawned at most one callback invocation begins, exactly one has begun when it
has returned, and the schedule `finish s` makes it return, with exactly one
invocation. -/
theorem C10_stop_is_permanent (cb : Nat → Bool) (p f : Nat) (l : Bool) (pr : Int)
    (todo : List Op) (sched : List Tid) (s : Sys) (hs : s = reach cb p f l pr todo sched) :
    (s.cpc.requested = true → s.obj.looping_ = false) ∧
    (s.obj.looping_ = false →
      (∀ t : Tid, (step cb t s).obj.looping_ = false) ∧
      (∀ more : List Tid, (run cb more s).obj.looping_ = false) ∧
      (s.wpc = .setFnExit false .lock →
        (∀ more : List Tid, (run cb more s).runs = s.runs →
          (run cb more s).calls ≤ s.calls + 1 ∧
          ((run cb more s).wpc = .done →
            (run cb more s).calls = s.calls + 1 ∧ (run cb more s).obj.fnExited_ = true)) ∧
        (run cb (finish s) s).wpc = .done ∧
        (run cb (finish s) s).calls = s.calls + 1)) := by
  have hg : Good s := by rw [hs]; exact Good_reach cb p f l pr todo sched
  refine ⟨hg.2.2.2.2.1, fun hstop => ⟨fun t => (Acct_step cb t s hg.1 hstop).1,
    fun more => (Acct_run cb more s hg.1 hstop).1, fun hentry => ?_⟩⟩
  have hidle : s.wpc ≠ .idle := by rw [hentry]; simp
  have key : ∀ more : List Tid, (run cb more s).runs = s.runs →
      (run cb more s).calls ≤ s.calls + 1 ∧
      ((run cb more s).wpc = .done →
        (run cb more s).calls = s.calls + 1 ∧ (run cb more s).obj.fnExited_ = true) := by
    intro more hr
    obtain ⟨_, a1, _, _, _, _, _, _⟩ := Acct_run cb more s hg.1 hstop
    rw [hentry] at a1
    simp only [WPc.owed] at a1
    refine ⟨by omega, fun hd => ?_⟩
    have hg2 := Good_run cb more s hg
    rw [hd] at a1
    simp only [WPc.owed] at a1
    refine ⟨by omega, ?_⟩
    rw [hg2.2.1, hd]; rfl
  obtain ⟨f1, _, f3⟩ := finish_reaches_done cb s hg.1 hstop hidle
  exact ⟨key, f1, ((key (finish s) f3).2 f1).1⟩

/-- C10 at `startAfterStop`: a thread function spawned after `WaitExit`. -/
theorem C10_stop_is_permanent_witness :
    startAfterStop = reach (fun _ => true) 1 2 true 0 [Op.WaitExit, Op.Start]
        (List.replicate 10 Tid.ctrl) ∧
    ((startAfterStop.cpc.requested = true → startAfterStop.obj.looping_ = false) ∧
    (startAfterStop.obj.looping_ = false →
      (∀ t : Tid, (step (fun _ => true) t startAfterStop).obj.looping_ = false) ∧
      (∀ more : List Tid, (run (fun _ => true) more startAfterStop).obj.looping_ = false) ∧
      (startAfterStop.wpc = .setFnExit false .lock →
        (∀ more : List Tid, (run (fun _ => true) more startAfterStop).runs = startAfterStop.runs →
          (run (fun _ => true) more startAfterStop).calls ≤ startAfterStop.calls + 1 ∧
          ((run (fun _ => true) more startAfterStop).wpc = .done →
            (run (fun _ => true) more startAfterStop).calls = startAfterStop.calls + 1 ∧
              (run (fun _ => true) more startAfterStop).obj.fnExited_ = true)) ∧
        (run (fun _ => true) (finish startAfterStop) startAfterStop).wpc = .done ∧
        (run (fun _ => true) (finish startAfterStop) startAfterStop).calls
          = startAfterStop.calls + 1))) :=
  ⟨rfl, C10_stop_is_permanent (fun _ => true) 1 2 true 0 [Op.WaitExit, Op.Start]
    (List.replicate 10 Tid.ctrl) startAfterStop rfl⟩

/-- C3 (the exited flag tracks completion of the worker loop).  In every state
`s` reachable from a freshly constructed object: (1) `fnExited_` is false
whenever the worker is inside the loop, in particular when it is about to invoke
the callback and while the callback executes, and no step of either thread taken
during an invocation makes it true; (2) if `fnExited_` is true, the worker is
outside the loop: not yet past the assignment of line 46, or past the assignment
of line 59; (3) when the worker is at line 59 or has returned, every invocation
begun has returned, `looping_` is false, and no invocation begins any more as
long as no further thread function is spawned; (4) when `ThreadFunction` has
returned, `fnExited_` is true and a call of `HasFnExited` by the controlling
thread returns `true`. -/
theorem C3_exited_flag_tracks_loop (cb : Nat → Bool) (p f : Nat) (l : Bool) (pr : Int)
    (todo : List Op) (sched : List Tid) (s : Sys) (hs : s = reach cb p f l pr todo sched) :
    (s.wpc.inLoop = true → s.obj.fnExited_ = false) ∧
    (s.wpc = .callFn ∨ s.wpc = .inFn →
      s.obj.fnExited_ = false ∧ ∀ t : Tid, (step cb t s).obj.fnExited_ = false) ∧
    (s.obj.fnExited_ = true →
      s.wpc = .idle ∨ s.wpc = .setFnExit false .lock ∨ s.wpc = .setFnExit false .access ∨
        s.wpc = .setFnExit true .unlock ∨ s.wpc = .done) ∧
    ((∃ ph, s.wpc = .setFnExit true ph) ∨ s.wpc = .done →
      s.results.length = s.calls ∧ s.obj.looping_ = false ∧
      ∀ more : List Tid, (run cb more s).runs = s.runs → (run cb more s).calls = s.calls) ∧
    (s.wpc = .done →
      s.obj.fnExited_ = true ∧
      ∀ rest : List Op, s.cpc = .ready → s.todo = Op.HasFnExited :: rest →
        (run cb (List.replicate 4 Tid.ctrl) s).cpc = .ready ∧
        (run cb (List.replicate 4 Tid.ctrl) s).todo = rest ∧
        (run cb (List.replicate 4 Tid.ctrl) s).ret = some true) := by
  have hg : Good s := by rw [hs]; exact Good_reach cb p f l pr todo sched
  obtain ⟨hinv, he, hr, hl, _, _⟩ := hg
  refine ⟨fun h => ?_, fun h => ⟨?_, fun t => ?_⟩, fun h => ?_, fun h => ⟨?_, ?_, ?_⟩,
    fun h => ⟨?_, fun rest hc ht => ?_⟩⟩
  · rw [he]
    rcases hw : s.wpc with _ | ⟨_ | _, _ | _ | _⟩ | _ | _ | ⟨_ | _ | (_ | _)⟩ | _ | _ <;>
      simp_all [WPc.inLoop, WPc.exited]
  · rw [he]; rcases h with h | h <;> rw [h] <;> rfl
  · have hg2 := Good_step cb t s ⟨hinv, he, hr, hl, ‹_›, ‹_›⟩
    rw [hg2.2.1]
    obtain ⟨⟨p, f, m, pr, l, e⟩, w, c, todo, ret, runs, calls, res, s0, s1, po, ws, ug⟩ := s
    simp only at h
    cases t
    · rcases h with h | h <;> subst h <;>
        rcases c with _ | _ | _ | ⟨_ | _, _ | _ | _⟩ | _ | ⟨_ | _, _ | _ | (_ | _)⟩ <;>
        first
        | (rcases todo with _ | ⟨op, rest⟩ <;> simp [step, stepCtrl, WPc.exited] ; done)
        | (rcases m with _ | m <;>
            simp [step, stepCtrl, WPc.exited, Thread.Run, Mutex.Acquire])
    · rcases h with h | h <;> subst h <;> simp [step, stepWorker, WPc.exited]
  · rw [he] at h
    rcases hw : s.wpc with _ | ⟨_ | _, _ | _ | _⟩ | _ | _ | ⟨_ | _ | (_ | _)⟩ | _ | _ <;>
      simp_all [WPc.exited]
  · rcases h with ⟨ph, h⟩ | h <;> rw [h] at hr <;> simpa using hr
  · apply hl
    rcases h with ⟨ph, h⟩ | h <;> rw [h] <;> rfl
  · intro more hruns
    have hstop : s.obj.looping_ = false := by
      apply hl
      rcases h with ⟨ph, h⟩ | h <;> rw [h] <;> rfl
    obtain ⟨_, a1, _, _, _, a5, _, _⟩ := Acct_run cb more s hinv hstop
    have : s.wpc.owed = 0 := by
      rcases h with ⟨ph, h⟩ | h <;> rw [h] <;> rfl
    omega
  · rw [he, h]; rfl
  · obtain ⟨⟨p, f, m, pr, l, e⟩, w, c, todo, ret, runs, calls, res, s0, s1, po, ws, ug⟩ := s
    obtain ⟨h1, h2, h3⟩ := hinv
    simp only at h hc ht h1 he
    subst h hc ht h1 he
    simp [run, List.replicate, step, stepCtrl, Op.entry, owner, WPc.holds, CPc.holds,
      Mutex.Acquire, Mutex.Release, WPc.exited]

/-- C3 at `workerFinished`, where `ThreadFunction` has returned. -/
theorem C3_exited_flag_tracks_loop_witness :
    (workerFinished = reach (fun _ => true) 1 2 true 0
        [Op.Start, Op.WaitExit, Op.HasFnExited]
        (List.replicate 3 Tid.ctrl ++ List.replicate 4 Tid.worker ++ List.replicate 4 Tid.ctrl ++
      List.replicate 7 Tid.worker ++ List.replicate 4 Tid.ctrl) ∧
      workerFinished.wpc = .done ∧ workerFinished.cpc = .ready ∧
      workerFinished.todo = [Op.HasFnExited]) ∧
    ((workerFinished.wpc.inLoop = true → workerFinished.obj.fnExited_ = false) ∧
    (workerFinished.wpc = .callFn ∨ workerFinished.wpc = .inFn →
      workerFinished.obj.fnExited_ = false ∧
        ∀ t : Tid, (step (fun _ => true) t workerFinished).obj.fnExited_ = false) ∧
    (workerFinished.obj.fnExited_ = true →
      workerFinished.wpc = .idle ∨ workerFinished.wpc = .setFnExit false .lock ∨
        workerFinished.wpc = .setFnExit false .access ∨
        workerFinished.wpc = .setFnExit true .unlock ∨ workerFinished.wpc = .done) ∧
    ((∃ ph, workerFinished.wpc = .setFnExit true ph) ∨ workerFinished.wpc = .done →
      workerFinished.results.length = workerFinished.calls ∧
      workerFinished.obj.looping_ = false ∧
      ∀ more : List Tid, (run (fun _ => true) more workerFinished).runs = workerFinished.runs →
        (run (fun _ => true) more workerFinished).calls = workerFinished.calls) ∧
    (workerFinished.wpc = .done →
      workerFinished.obj.fnExited_ = true ∧
      ∀ rest : List Op, workerFinished.cpc = .ready →
        workerFinished.todo = Op.HasFnExited :: rest →
        (run (fun _ => true) (List.replicate 4 Tid.ctrl) workerFinished).cpc = .ready ∧
        (run (fun _ => true) (List.replicate 4 Tid.ctrl) workerFinished).todo = rest ∧
        (run (fun _ => true) (List.replicate 4 Tid.ctrl) workerFinished).ret = some true)) :=
  ⟨⟨rfl, by decide, by decide, by decide⟩,
    C3_exited_flag_tracks_loop (fun _ => true) 1 2 true 0
      [Op.Start, Op.WaitExit, Op.HasFnExited]
      (List.replicate 3 Tid.ctrl ++ List.replicate 4 Tid.worker ++ List.replicate 4 Tid.ctrl ++
      List.replicate 7 Tid.worker ++ List.replicate 4 Tid.ctrl)
      workerFinished rfl⟩

/-- C7 (lock discipline).  In every state `s` reachable from a freshly
constructed object: (1) no read or write of `looping_` or `fnExited_` has been
made by a thread that did not own `mutexLock_`; (2) a thread owns the mutex
exactly when it is between the acquire and the release of a guard, so that at
each guarded read or write the accessing thread owns it; (3) the release step of
each of `SetFnExit`, `IsLooping`, `SetLooping` and `HasFnExited` leaves the mutex
unowned; (4) where the worker invokes the callback, executes it, or sleeps, the
worker does not own the mutex, and the mutex is unowned unless the controlling
thread is inside one of its own guarded sections. -/
theorem C7_lock_discipline (cb : Nat → Bool) (p f : Nat) (l : Bool) (pr : Int)
    (todo : List Op) (sched : List Tid) (s : Sys) (hs : s = reach cb p f l pr todo sched) :
    s.unguarded = 0 ∧
    ((s.obj.mutexLock_ = some .worker ↔ s.wpc.holds = true) ∧
      (s.obj.mutexLock_ = some .ctrl ↔ s.cpc.holds = true)) ∧
    (((∃ b, s.wpc = .setFnExit b .access) ∨ s.wpc = .isLooping .access →
        s.obj.mutexLock_ = some .worker) ∧
      ((∃ b, s.cpc = .setLooping b .access) ∨ (∃ w, s.cpc = .hasFnExited w .access) →
        s.obj.mutexLock_ = some .ctrl)) ∧
    (((∃ b, s.wpc = .setFnExit b .unlock) ∨ (∃ r, s.wpc = .isLooping (.unlock r)) →
        (stepWorker cb s).obj.mutexLock_ = none) ∧
      ((∃ b, s.cpc = .setLooping b .unlock) ∨ (∃ w r, s.cpc = .hasFnExited w (.unlock r)) →
        (stepCtrl s).obj.mutexLock_ = none)) ∧
    (s.wpc = .callFn ∨ s.wpc = .inFn ∨ s.wpc = .sleep0 →
      s.obj.mutexLock_ ≠ some .worker ∧ (s.cpc.holds = false → s.obj.mutexLock_ = none)) := by
  have hg : Good s := by rw [hs]; exact Good_reach cb p f l pr todo sched
  obtain ⟨⟨hm, hx, _⟩, _, _, _, _, hu⟩ := hg
  obtain ⟨⟨p, f, m, pr, l, e⟩, w, c, todo, ret, runs, calls, res, s0, s1, po, ws, ug⟩ := s
  simp only at hm hx hu
  subst hm hu
  refine ⟨rfl, ⟨?_, ?_⟩, ⟨?_, ?_⟩, ⟨?_, ?_⟩, ?_⟩
  · cases hw : w.holds <;> cases hc : c.holds <;> simp_all [owner]
  · cases hw : w.holds <;> cases hc : c.holds <;> simp_all [owner]
  · rintro (⟨b, h⟩ | h) <;> subst h <;> simp [owner, WPc.holds]
  · rintro (⟨b, h⟩ | ⟨b, h⟩) <;> subst h <;>
      cases hw : w.holds <;> simp_all [owner, CPc.holds]
  · rintro (⟨b, h⟩ | ⟨b, h⟩) <;> subst h <;> simp [stepWorker, Mutex.Release]
  · rintro (⟨b, h⟩ | ⟨b, r, h⟩) <;> subst h <;> simp [stepCtrl, Mutex.Release]
  · rintro (h | h | h) <;> subst h <;> cases hc : c.holds <;> simp [owner, WPc.holds, hc]

/-- C7 at `stopDuringCallback`: the callback is executing while the controlling
thread is inside `SetLooping`. -/
theorem C7_lock_discipline_witness :
    (stopDuringCallback = reach (fun _ => true) 1 2 true 0 [Op.Start, Op.WaitExit]
        [.ctrl, .ctrl, .ctrl, .worker, .worker, .worker, .worker, .ctrl, .ctrl, .ctrl]) ∧
    (stopDuringCallback.unguarded = 0 ∧
    ((stopDuringCallback.obj.mutexLock_ = some .worker ↔ stopDuringCallback.wpc.holds = true) ∧
      (stopDuringCallback.obj.mutexLock_ = some .ctrl ↔
        stopDuringCallback.cpc.holds = true)) ∧
    (((∃ b, stopDuringCallback.wpc = .setFnExit b .access) ∨
          stopDuringCallback.wpc = .isLooping .access →
        stopDuringCallback.obj.mutexLock_ = some .worker) ∧
      ((∃ b, stopDuringCallback.cpc = .setLooping b .access) ∨
          (∃ w, stopDuringCallback.cpc = .hasFnExited w .access) →
        stopDuringCallback.obj.mutexLock_ = some .ctrl)) ∧
    (((∃ b, stopDuringCallback.wpc = .setFnExit b .unlock) ∨
          (∃ r, stopDuringCallback.wpc = .isLooping (.unlock r)) →
        (stepWorker (fun _ => true) stopDuringCallback).obj.mutexLock_ = none) ∧
      ((∃ b, stopDuringCallback.cpc = .setLooping b .unlock) ∨
          (∃ w r, stopDuringCallback.cpc = .hasFnExited w (.unlock r)) →
        (stepCtrl stopDuringCallback).obj.mutexLock_ = none)) ∧
    (stopDuringCallback.wpc = .callFn ∨ stopDuringCallback.wpc = .inFn ∨
        stopDuringCallback.wpc = .sleep0 →
      stopDuringCallback.obj.mutexLock_ ≠ some .worker ∧
        (stopDuringCallback.cpc.holds = false → stopDuringCallback.obj.mutexLock_ = none))) :=
  ⟨rfl, C7_lock_discipline (fun _ => true) 1 2 true 0 [Op.Start, Op.WaitExit]
    [.ctrl, .ctrl, .ctrl, .worker, .worker, .worker, .worker, .ctrl, .ctrl, .ctrl]
    stopDuringCallback rfl⟩

/-- C4 fails on the code.  The controlling thread calls `Start` and `WaitExit` and
runs both to completion before the spawned thread has executed `SetFnExit(false)`:
`WaitExit` has returned, its poll having read the `true` left by the constructor,
while the thread function is spawned and has not invoked the callback; the worker
invokes the callback afterwards.  Likewise `HasFnExited()` called right after
`Start()` returns `true` although the worker loop has not terminated. -/
theorem C4_join_returns_before_worker_ran :
    (joinBeforeFirstStep.cpc = .ready ∧ joinBeforeFirstStep.todo = [] ∧
      joinBeforeFirstStep.ret = some true ∧ joinBeforeFirstStep.runs = 1 ∧
      joinBeforeFirstStep.wpc = .setFnExit false .lock ∧ joinBeforeFirstStep.calls = 0 ∧
      joinBeforeFirstStep.obj.fnExited_ = true) ∧
    ((run (fun _ => true) (List.replicate 4 Tid.worker) joinBeforeFirstStep).wpc = .inFn ∧
      (run (fun _ => true) (List.replicate 4 Tid.worker) joinBeforeFirstStep).calls = 1 ∧
      (run (fun _ => true) (List.replicate 4 Tid.worker) joinBeforeFirstStep).obj.fnExited_
        = false) ∧
    (pollBeforeFirstStep.cpc = .ready ∧ pollBeforeFirstStep.todo = [] ∧
      pollBeforeFirstStep.ret = some true ∧ pollBeforeFirstStep.runs = 1 ∧
      pollBeforeFirstStep.wpc = .setFnExit false .lock ∧
      (run (fun _ => true) (List.replicate 4 Tid.worker) pollBeforeFirstStep).wpc = .inFn ∧
      (run (fun _ => true) (List.replicate 4 Tid.worker) pollBeforeFirstStep).calls = 1) := by
  decide

/-! ### The callback outcome is not looked at -/

theorem SameControl_stepWorker (cb cb2 : Nat → Bool) (a b : Sys) (h : SameControl a b) :
    SameControl (stepWorker cb a) (stepWorker cb2 b) := by
  obtain ⟨⟨p, f, m, pr, l, e⟩, w, c, todo, ret, runs, calls, res, s0, s1, po, ws, ug⟩ := a
  obtain ⟨o2, w2, c2, todo2, ret2, runs2, calls2, res2, s02, s12, po2, ws2, ug2⟩ := b
  obtain ⟨h1, h2, h3, h4, h5, h6, h7, h8, h9, h10, h11, h12, h13⟩ := h
  simp only at h1 h2 h3 h4 h5 h6 h7 h8 h9 h10 h11 h12 h13
  subst h1 h2 h3 h4 h5 h6 h7 h9 h10 h11 h12 h13
  rcases m with _ | m <;>
    rcases w with _ | ⟨_ | _, _ | _ | _⟩ | _ | _ | ⟨_ | _ | (_ | _)⟩ | _ | _ <;>
    simp [SameControl, stepWorker, Mutex.Acquire, Mutex.Release, h8]

theorem SameControl_stepCtrl (a b : Sys) (h : SameControl a b) :
    SameControl (stepCtrl a) (stepCtrl b) := by
  obtain ⟨⟨p, f, m, pr, l, e⟩, w, c, todo, ret, runs, calls, res, s0, s1, po, ws, ug⟩ := a
  obtain ⟨o2, w2, c2, todo2, ret2, runs2, calls2, res2, s02, s12, po2, ws2, ug2⟩ := b
  obtain ⟨h1, h2, h3, h4, h5, h6, h7, h8, h9, h10, h11, h12, h13⟩ := h
  simp only at h1 h2 h3 h4 h5 h6 h7 h8 h9 h10 h11 h12 h13
  subst h1 h2 h3 h4 h5 h6 h7 h9 h10 h11 h12 h13
  rcases m with _ | m <;>
    rcases c with _ | _ | _ | ⟨_ | _, _ | _ | _⟩ | _ | ⟨_ | _, _ | _ | (_ | _)⟩ <;>
    first
    | (rcases todo with _ | ⟨op, rest⟩ <;> simp [SameControl, stepCtrl, h8] ; done)
    | simp [SameControl, stepCtrl, Mutex.Acquire, Mutex.Release, h8]

theorem SameControl_run (cb cb2 : Nat → Bool) (sched : List Tid) (a b : Sys)
    (h : SameControl a b) : SameControl (run cb sched a) (run cb2 sched b) := by
  induction sched generalizing a b with
  | nil => exact h
  | cons t ts ih =>
    cases t
    · exact ih _ _ (SameControl_stepCtrl a b h)
    · exact ih _ _ (SameControl_stepWorker cb cb2 a b h)

theorem SameControl_refl (a : Sys) : SameControl a a := by
  simp [SameControl]

/-- C6, as stated, fails: with a callback that fails on every invocation and
`looping_` true, the first invocation fails, and six worker steps later the
callback has been invoked a second time; the worker has not exited and
`fnExited_` is false. -/
theorem C6_counterexample :
    failingFirstCall.wpc = .inFn ∧ failingFirstCall.calls = 1 ∧
    failingFirstCall.obj.looping_ = true ∧
    (run (fun _ => false) (List.replicate 6 Tid.worker) failingFirstCall).results = [false] ∧
    (run (fun _ => false) (List.replicate 6 Tid.worker) failingFirstCall).calls = 2 ∧
    (run (fun _ => false) (List.replicate 6 Tid.worker) failingFirstCall).wpc = .inFn ∧
    (run (fun _ => false) (List.replicate 6 Tid.worker) failingFirstCall).obj.fnExited_
      = false := by
  decide

/-- C6, amended.  Let the worker be executing a callback invocation that fails.
(1) The invocation returns, its outcome is recorded, and the worker goes on to
the same stop check as after a success.  (2) The run does not depend on the
outcomes: with any other callback the same schedule gives the same state up to
the recorded outcomes.  (3) If `looping_` is false and no `Start` is pending, no
further invocation begins under any schedule; when the worker has returned,
`fnExited_` is true and a `WaitExit` in progress returns within 5 steps of the
controlling thread with its poll reading `true`; the schedule `finish s` makes
the worker return.  (4) If `looping_` is true and the controlling thread is
outside its guarded sections, six worker steps later the callback has been
invoked again and `fnExited_` is unchanged. -/
theorem C6_outcome_ignored (cb : Nat → Bool) (s : Sys) (hinv : Inv s)
    (hfn : s.wpc = .inFn) (hfail : cb s.results.length = false) :
    ((stepWorker cb s).results = s.results ++ [false] ∧
      (stepWorker cb s).wpc = .isLooping .lock) ∧
    (∀ (cb2 : Nat → Bool) (sched : List Tid),
      SameControl (run cb sched s) (run cb2 sched s)) ∧
    (s.obj.looping_ = false → NoStart s →
      (∀ sched : List Tid,
        (run cb sched s).calls = s.calls ∧
        ((run cb sched s).wpc = .done →
          (run cb sched s).obj.fnExited_ = true ∧
          ((run cb sched s).cpc.requested = true →
            ∃ n, n ≤ 5 ∧
              (run cb (List.replicate n Tid.ctrl) (run cb sched s)).cpc = .ready ∧
              (run cb (List.replicate n Tid.ctrl) (run cb sched s)).ret = some true))) ∧
      (run cb (finish s) s).wpc = .done) ∧
    (s.obj.looping_ = true → s.cpc.holds = false →
      (run cb (List.replicate 6 Tid.worker) s).wpc = .inFn ∧
      (run cb (List.replicate 6 Tid.worker) s).calls = s.calls + 1 ∧
      (run cb (List.replicate 6 Tid.worker) s).obj.fnExited_ = s.obj.fnExited_) := by
  have hidle : s.wpc ≠ .idle := by rw [hfn]; simp
  have hx : ExitOK s := by intro h; rw [hfn] at h; simp at h
  refine ⟨?_, fun cb2 sched => SameControl_run cb cb2 sched s s (SameControl_refl s),
    fun hstop hns => ⟨fun sched => ?_, (finish_reaches_done cb s hinv hstop hidle).1⟩,
    fun hloop hc => ?_⟩
  · simp [stepWorker, hfn, hfail]
  · obtain ⟨_, b1, _, _, b4, _, b6, _⟩ := stopped_run cb sched s hinv hstop hns hx hidle
    rw [hfn] at b1
    simp only [WPc.owed] at b1
    refine ⟨by omega, fun hd => ⟨b6 hd, fun hreq => ?_⟩⟩
    obtain ⟨n, hn, c1, _, c3⟩ :=
      waitExit_returns cb (run cb sched s) (Inv_run cb sched s hinv) hd (b6 hd) (Or.inl hreq)
    exact ⟨n, hn, c1, c3⟩
  · obtain ⟨⟨p, f, m, pr, l, e⟩, w, c, todo, ret, runs, calls, res, s0, s1, po, ws, ug⟩ := s
    obtain ⟨h1, h2, h3⟩ := hinv
    simp only at hfn hloop hc h1
    subst hfn hloop h1
    simp [run, List.replicate, step, stepWorker, owner, WPc.holds, hc, Mutex.Acquire,
      Mutex.Release]

/-- C6 (amended) at `failingFirstCall`, where the callback fails on every
invocation. -/
theorem C6_outcome_ignored_witness :
    (Inv failingFirstCall ∧ failingFirstCall.wpc = .inFn ∧
      (fun _ => false) failingFirstCall.results.length = false) ∧
    (((stepWorker (fun _ => false) failingFirstCall).results
          = failingFirstCall.results ++ [false] ∧
      (stepWorker (fun _ => false) failingFirstCall).wpc = .isLooping .lock) ∧
    (∀ (cb2 : Nat → Bool) (sched : List Tid),
      SameControl (run (fun _ => false) sched failingFirstCall)
        (run cb2 sched failingFirstCall)) ∧
    (failingFirstCall.obj.looping_ = false → NoStart failingFirstCall →
      (∀ sched : List Tid,
        (run (fun _ => false) sched failingFirstCall).calls = failingFirstCall.calls ∧
        ((run (fun _ => false) sched failingFirstCall).wpc = .done →
          (run (fun _ => false) sched failingFirstCall).obj.fnExited_ = true ∧
          ((run (fun _ => false) sched failingFirstCall).cpc.requested = true →
            ∃ n, n ≤ 5 ∧
              (run (fun _ => false) (List.replicate n Tid.ctrl)
                (run (fun _ => false) sched failingFirstCall)).cpc = .ready ∧
              (run (fun _ => false) (List.replicate n Tid.ctrl)
                (run (fun _ => false) sched failingFirstCall)).ret = some true))) ∧
      (run (fun _ => false) (finish failingFirstCall) failingFirstCall).wpc = .done) ∧
    (failingFirstCall.obj.looping_ = true → failingFirstCall.cpc.holds = false →
      (run (fun _ => false) (List.replicate 6 Tid.worker) failingFirstCall).wpc = .inFn ∧
      (run (fun _ => false) (List.replicate 6 Tid.worker) failingFirstCall).calls
        = failingFirstCall.calls + 1 ∧
      (run (fun _ => false) (List.replicate 6 Tid.worker) failingFirstCall).obj.fnExited_
        = failingFirstCall.obj.fnExited_)) :=
  ⟨⟨by decide, by decide, rfl⟩,
    C6_outcome_ignored (fun _ => false) failingFirstCall (by decide) (by decide) rfl⟩

/-! ### `WaitExit` executed while no thread function is running -/

theorem run_ctrl_only (cb : Nat → Bool) (sched : List Tid) (s : Sys)
    (h : ∀ k, k ≤ sched.count Tid.ctrl →
      stepWorker cb (run cb (List.replicate k Tid.ctrl) s)
        = run cb (List.replicate k Tid.ctrl) s) :
    run cb sched s = run cb (List.replicate (sched.count Tid.ctrl) Tid.ctrl) s := by
  induction sched generalizing s with
  | nil => rfl
  | cons t ts ih =>
    cases t
    · have hc : (Tid.ctrl :: ts).count Tid.ctrl = ts.count Tid.ctrl + 1 := by simp
      rw [hc, run_replicate_succ]
      show run cb ts (step cb Tid.ctrl s) = _
      apply ih
      intro k hk
      have := h (k + 1) (by rw [hc]; omega)
      rw [run_replicate_succ] at this
      exact this
    · have hc : (Tid.worker :: ts).count Tid.ctrl = ts.count Tid.ctrl := by simp
      rw [hc]
      show run cb ts (stepWorker cb s) = _
      have h0 : stepWorker cb s = s := h 0 (Nat.zero_le _)
      rw [h0]
      apply ih
      intro k hk
      exact h k (by rw [hc]; exact hk)

theorem stepWorker_stopped (cb : Nat → Bool) (s : Sys) (h : Thread.stopped s.wpc = true) :
    stepWorker cb s = s := by
  obtain ⟨o, w, c, todo, ret, runs, calls, res, s0, s1, po, ws, ug⟩ := s
  rcases w with _ | ⟨_ | _, _ | _ | _⟩ | _ | _ | ⟨_ | _ | (_ | _)⟩ | _ | _ <;>
    simp_all [Thread.stopped, stepWorker]

theorem waitExit_alone (cb : Nat → Bool) (s : Sys) (rest : List Op) (hc : s.cpc = .ready)
    (ht : s.todo = Op.WaitExit :: rest) (hm : s.obj.mutexLock_ = none)
    (he : s.obj.fnExited_ = true) :
    run cb (List.replicate 8 Tid.ctrl) s =
        { s with obj := { s.obj with looping_ := false }, cpc := .ready, todo := rest,
                 ret := some true, sleeps1 := s.sleeps1 + 1, polls := s.polls + 1 } ∧
      ∀ k, k ≤ 8 → (run cb (List.replicate k Tid.ctrl) s).wpc = s.wpc ∧
        (k < 8 → ¬ ((run cb (List.replicate k Tid.ctrl) s).cpc = .ready ∧
          (run cb (List.replicate k Tid.ctrl) s).todo = rest)) := by
  obtain ⟨⟨p, f, m, pr, l, e⟩, w, c, todo, ret, runs, calls, res, s0, s1, po, ws, ug⟩ := s
  simp only at hc ht hm he
  subst hc ht hm he
  refine ⟨?_, fun k hk => ?_⟩
  · simp [run, List.replicate, step, stepCtrl, Op.entry, Mutex.Acquire, Mutex.Release,
      unlockedAccess]
  · interval_cases k <;>
      simp [run, List.replicate, step, stepCtrl, Op.entry, Mutex.Acquire, Mutex.Release,
        unlockedAccess]

theorem SleepsFirst_stepWorker (cb : Nat → Bool) (rest : List Op) (s0 s : Sys)
    (h : SleepsFirst rest s0 s) : SleepsFirst rest s0 (stepWorker cb s) := by
  obtain ⟨⟨p, f, _ | m, pr, l, e⟩, w, c, todo, ret, runs, calls, res, z0, z1, po, ws, ug⟩ := s
  all_goals
    rcases w with _ | ⟨_ | _, _ | _ | _⟩ | _ | _ | ⟨_ | _ | (_ | _)⟩ | _ | _ <;>
    simpa [SleepsFirst, stepWorker, Mutex.Acquire, Mutex.Release] using h

theorem SleepsFirst_stepCtrl (rest : List Op) (s0 s : Sys) (h : SleepsFirst rest s0 s) :
    SleepsFirst rest s0 (stepCtrl s) := by
  obtain ⟨⟨p, f, m, pr, l, e⟩, w, c, todo, ret, runs, calls, res, z0, z1, po, ws, ug⟩ := s
  rcases c with _ | _ | _ | ⟨_ | _, _ | _ | _⟩ | _ | ⟨_ | _, _ | _ | (_ | _)⟩
  · rcases todo with _ | ⟨op, tl⟩
    · simpa [stepCtrl] using h
    · rcases h with ⟨h1, h2, h3, h4⟩ | ⟨h1, h2, h3⟩ | h1
      · simp only [List.cons.injEq] at h1
        obtain ⟨rfl, rfl⟩ := h1
        simp only at h3 h4
        subst h3 h4
        exact Or.inr (Or.inl (by simp [stepCtrl, Op.entry, CPc.inWaitExit, CPc.pollPending]))
      · simp only at h1
        subst h1
        exact Or.inr (Or.inr (by simp [stepCtrl]))
      · simp only [List.length_cons] at h1
        exact Or.inr (Or.inr (by simp only [stepCtrl]; omega))
  all_goals
    rcases m with _ | m <;>
    rcases h with ⟨h1, h2, h3, h4⟩ | ⟨h1, h2, h3⟩ | h1 <;>
    first
    | (exact Or.inr (Or.inr (by simpa [stepCtrl, Mutex.Acquire] using h1)))
    | (simp at h2 ; done)
    | (simp [CPc.inWaitExit] at h2 ; done)
    | (cases e <;> simp only [CPc.pollPending] at h3 <;>
        exact Or.inr (Or.inl (by
          simp [stepCtrl, Mutex.Acquire, Mutex.Release, CPc.inWaitExit, CPc.pollPending, h1]
          try omega)))

theorem SleepsFirst_run (cb : Nat → Bool) (rest : List Op) (sched : List Tid) (s0 s : Sys)
    (h : SleepsFirst rest s0 s) : SleepsFirst rest s0 (run cb sched s) := by
  induction sched generalizing s with
  | nil => exact h
  | cons t ts ih =>
    cases t
    · exact ih _ (SleepsFirst_stepCtrl rest s0 s h)
    · exact ih _ (SleepsFirst_stepWorker cb rest s0 s h)

/-- C9 (join of a worker that is not running).  (1) The constructor leaves
`fnExited_` true and the mutex unowned for every choice of its arguments.
(2) For a call of `WaitExit` issued in any state, under every schedule, the
polls made plus the poll in preparation equal the sleeps made, so a poll is
always preceded by a sleep.  (3) If `fnExited_` is true, no thread function is
executing and the mutex is unowned, then every schedule that contains exactly 8
steps of the controlling thread ends in the state that differs from the initial
one only in that `WaitExit` has returned, `looping_` is false, the poll has
returned `true`, and one `Time::Sleep(1)` and one poll have been counted; the
callback count, `fnExited_`, `parent_`, `processFn_` and `priority_` are
unchanged; with fewer than 8 steps `WaitExit` has not returned. -/
theorem C9_join_of_stopped_worker (cb : Nat → Bool) (s : Sys) (rest : List Op)
    (hc : s.cpc = .ready) (ht : s.todo = Op.WaitExit :: rest) :
    (∀ (p f : Nat) (l : Bool) (pr : Int),
      (HelperThread.ctor p f l pr).fnExited_ = true ∧
        (HelperThread.ctor p f l pr).mutexLock_ = none) ∧
    (∀ sched : List Tid, (run cb sched s).todo = rest →
      (run cb sched s).polls + (run cb sched s).cpc.pollPending + s.sleeps1
          = s.polls + (run cb sched s).sleeps1 ∧
        (s.polls < (run cb sched s).polls → s.sleeps1 < (run cb sched s).sleeps1)) ∧
    (s.obj.fnExited_ = true → Thread.stopped s.wpc = true → s.obj.mutexLock_ = none →
      (∀ sched : List Tid, sched.count Tid.ctrl = 8 →
        run cb sched s =
          { s with obj := { s.obj with looping_ := false }, cpc := .ready, todo := rest,
                   ret := some true, sleeps1 := s.sleeps1 + 1, polls := s.polls + 1 }) ∧
      (∀ sched : List Tid, sched.count Tid.ctrl < 8 →
        ¬ ((run cb sched s).cpc = .ready ∧ (run cb sched s).todo = rest))) := by
  refine ⟨fun p f l pr => ⟨rfl, rfl⟩, fun sched htodo => ?_, fun he hw hm => ?_⟩
  · have h0 : SleepsFirst rest s s := Or.inl ⟨ht, hc, rfl, rfl⟩
    rcases SleepsFirst_run cb rest sched s s h0 with ⟨h1, _⟩ | ⟨_, _, h3⟩ | h1
    · rw [htodo] at h1
      exact absurd h1 (by
        intro h
        have := congrArg List.length h
        simp at this)
    · exact ⟨h3, fun hlt => by omega⟩
    · rw [htodo] at h1; omega
  · obtain ⟨w1, w2⟩ := waitExit_alone cb s rest hc ht hm he
    have hidle : ∀ sched : List Tid, sched.count Tid.ctrl ≤ 8 →
        run cb sched s = run cb (List.replicate (sched.count Tid.ctrl) Tid.ctrl) s := by
      intro sched hle
      apply run_ctrl_only
      intro k hk
      apply stepWorker_stopped
      rw [(w2 k (by omega)).1]
      exact hw
    refine ⟨fun sched h8 => ?_, fun sched hlt => ?_⟩
    · rw [hidle sched (by omega), h8]
      exact w1
    · rw [hidle sched (by omega)]
      exact (w2 _ (by omega)).2 hlt

/-- C9 at `joinFresh`: the destructor of a never-started object. -/
theorem C9_join_of_stopped_worker_witness :
    (joinFresh.cpc = .ready ∧ joinFresh.todo = Op.WaitExit :: [] ∧
      joinFresh.obj.fnExited_ = true ∧ Thread.stopped joinFresh.wpc = true ∧
      joinFresh.obj.mutexLock_ = none) ∧
    ((∀ (p f : Nat) (l : Bool) (pr : Int),
      (HelperThread.ctor p f l pr).fnExited_ = true ∧
        (HelperThread.ctor p f l pr).mutexLock_ = none) ∧
    (∀ sched : List Tid, (run (fun _ => true) sched joinFresh).todo = [] →
      (run (fun _ => true) sched joinFresh).polls
            + (run (fun _ => true) sched joinFresh).cpc.pollPending + joinFresh.sleeps1
          = joinFresh.polls + (run (fun _ => true) sched joinFresh).sleeps1 ∧
        (joinFresh.polls < (run (fun _ => true) sched joinFresh).polls →
          joinFresh.sleeps1 < (run (fun _ => true) sched joinFresh).sleeps1)) ∧
    (joinFresh.obj.fnExited_ = true → Thread.stopped joinFresh.wpc = true →
        joinFresh.obj.mutexLock_ = none →
      (∀ sched : List Tid, sched.count Tid.ctrl = 8 →
        run (fun _ => true) sched joinFresh =
          { joinFresh with obj := { joinFresh.obj with looping_ := false }, cpc := .ready,
                           todo := [], ret := some true,
                           sleeps1 := joinFresh.sleeps1 + 1,
                           polls := joinFresh.polls + 1 }) ∧
      (∀ sched : List Tid, sched.count Tid.ctrl < 8 →
        ¬ ((run (fun _ => true) sched joinFresh).cpc = .ready ∧
          (run (fun _ => true) sched joinFresh).todo = [])))) :=
  ⟨by decide, C9_join_of_stopped_worker (fun _ => true) joinFresh [] (by decide) (by decide)⟩

/-! ### A second call of `WaitExit` -/

theorem SetLooping_twice (t : Tid) (h : HelperThread) :
    (HelperThread.SetLooping t false h).bind (HelperThread.SetLooping t false)
      = HelperThread.SetLooping t false h := by
  obtain ⟨p, f, m, pr, l, e⟩ := h
  rcases m with _ | m <;> simp [HelperThread.SetLooping, Mutex.Acquire, Mutex.Release]

theorem SetLooping_steps (cb : Nat → Bool) (x : Sys) (b : Bool)
    (hx : x.cpc = .setLooping b .lock) :
    HelperThread.SetLooping .ctrl b x.obj =
      if x.obj.mutexLock_ = none then some (run cb (List.replicate 3 Tid.ctrl) x).obj
      else none := by
  obtain ⟨⟨p, f, m, pr, l, e⟩, w, c, todo, ret, runs, calls, res, z0, z1, po, ws, ug⟩ := x
  simp only at hx
  subst hx
  rcases m with _ | m <;>
    simp [HelperThread.SetLooping, Mutex.Acquire, Mutex.Release, run, List.replicate,
      step, stepCtrl]

/-- When no thread function is executing in a reachable state in which `looping_`
is already false, a call of `WaitExit` changes nothing but the counters of its
own sleep and poll, under every schedule with 8 steps of the controlling thread. -/
theorem join_again_when_stopped (cb : Nat → Bool) (p f : Nat) (l : Bool) (pr : Int)
    (todo : List Op) (sched0 : List Tid) (s : Sys) (rest : List Op)
    (hs : s = reach cb p f l pr todo sched0) (hc : s.cpc = .ready)
    (ht : s.todo = Op.WaitExit :: rest) (hw : Thread.stopped s.wpc = true)
    (hl : s.obj.looping_ = false) (sched : List Tid) (h8 : sched.count Tid.ctrl = 8) :
    run cb sched s =
      { s with todo := rest, ret := some true, sleeps1 := s.sleeps1 + 1,
               polls := s.polls + 1 } := by
  have hg : Good s := by rw [hs]; exact Good_reach cb p f l pr todo sched0
  obtain ⟨⟨hm, _, _⟩, he, _, _, _, _⟩ := hg
  have hwh : s.wpc.holds = false := by
    rcases hwpc : s.wpc with _ | ⟨_ | _, _ | _ | _⟩ | _ | _ | ⟨_ | _ | (_ | _)⟩ | _ | _ <;>
      simp_all [Thread.stopped, WPc.holds]
  have hm1 : s.obj.mutexLock_ = none := by
    rw [hm, hc]; simp [owner, hwh, CPc.holds]
  have he1 : s.obj.fnExited_ = true := by
    rw [he]
    rcases hwpc : s.wpc with _ | ⟨_ | _, _ | _ | _⟩ | _ | _ | ⟨_ | _ | (_ | _)⟩ | _ | _ <;>
      simp_all [Thread.stopped, WPc.exited]
  obtain ⟨w1, w2⟩ := waitExit_alone cb s rest hc ht hm1 he1
  have hrun : run cb sched s = run cb (List.replicate (sched.count Tid.ctrl) Tid.ctrl) s := by
    apply run_ctrl_only
    intro k hk
    apply stepWorker_stopped
    rw [(w2 k (by omega)).1]
    exact hw
  rw [hrun, h8, w1]
  obtain ⟨⟨p, f, m, pr, l, e⟩, w, c, todo, ret, runs, calls, res, z0, z1, po, ws, ug⟩ := s
  simp only at hl hc
  subst hl hc
  rfl

end OceanSim
